import Mathlib

/-!
Verification model of the WG14 document-log conversion pipeline
(`convert.py`).  The pipeline stages modelled here, faithful to the
source: record extraction (date parsing and duplicate detection in
`get_ndoc_data`), heuristic classification plus override table
(`classify_docs`), title- and update-reference-based grouping to a
fixpoint (`classify_docs`), auto-numbered identifier assignment
(`generate_autonum_docs`) and meeting-document generation
(`generate_meeting_docs`).

Conventions.  Python dicts keyed by document number become association
lists (`List (String × _)`) preserving insertion order; Python sets of
document numbers become `Finset String`; Python string comparison on
ISO dates becomes the lexicographic `String` order; `int(nnum)` becomes
`natOf`.  HTML fetching and HTML-to-Markdown title conversion are
external collaborators (explicitly out of scope in the repository's
design); accordingly titles, and the main/auxiliary title split
produced by the revision-marker regular expression, are taken as input
fields, and the raw author/title remainder of a log line is kept as an
unprocessed string.
-/

namespace CPapers

/-- Numeric value of a digit string, as Python `int` on the document
numbers appearing in the log (all keys are digit strings). -/
def natOf (s : String) : Nat :=
  s.data.foldl (fun a c => a * 10 + (c.toNat - 48)) 0

/-- ASCII lowercasing, as `str.lower()` on the ASCII phrases used by the
classification predicates. -/
def lowerStr (s : String) : String :=
  String.mk (s.data.map Char.toLower)

/-- ASCII uppercasing, as `str.upper()` on the class names. -/
def upperStr (s : String) : String :=
  String.mk (s.data.map Char.toUpper)

/-- Python `s[:n]` (by characters). -/
def takeStr (n : Nat) (s : String) : String := String.mk (s.data.take n)

/-- Python `s[n:]` (by characters). -/
def dropStr (n : Nat) (s : String) : String := String.mk (s.data.drop n)

/-- Whether `n` occurs as a contiguous substring of `h` (Python `in`). -/
def isSubChars (n : List Char) : List Char → Bool
  | [] => n.isEmpty
  | c :: rest => List.isPrefixOf n (c :: rest) || isSubChars n rest

/-- Python `needle in hay` on strings. -/
def hasSub (needle hay : String) : Bool :=
  isSubChars needle.data hay.data

/-- Decimal digit test, the regex class `[0-9]`. -/
def isDig (c : Char) : Bool := '0' ≤ c && c ≤ '9'

/-- Whitespace, the regex class `\s` on the characters that occur in the
log. -/
def isWs (c : Char) : Bool := c = ' ' || c = '\t' || c = '\n' || c = '\r'

/-- Strict lexicographic comparison of character lists by code point,
Python's string `<`. -/
def charsLT : List Char → List Char → Bool
  | [], [] => false
  | [], _ :: _ => true
  | _ :: _, [] => false
  | a :: as, b :: bs =>
      if a.toNat < b.toNat then true
      else if b.toNat < a.toNat then false
      else charsLT as bs

/-- Python string `<`. -/
def strLT (a b : String) : Bool := charsLT a.data b.data

/-- Python string `<=` (the negation of the reversed strict order). -/
def strLE (a b : String) : Bool := !(charsLT b.data a.data)

theorem char_eq_of_toNat {a b : Char} (h : a.toNat = b.toNat) : a = b :=
  Char.ext (UInt32.toNat.inj h)

theorem charsLT_trichotomy : ∀ as bs : List Char,
    charsLT as bs = true ∨ charsLT bs as = true ∨ as = bs := by
  intro as
  induction as with
  | nil =>
      intro bs
      cases bs with
      | nil => exact Or.inr (Or.inr rfl)
      | cons b bs => exact Or.inl rfl
  | cons a as ih =>
      intro bs
      cases bs with
      | nil => exact Or.inr (Or.inl rfl)
      | cons b bs =>
          rcases Nat.lt_trichotomy a.toNat b.toNat with h | h | h
          · exact Or.inl (by simp [charsLT, h])
          · have hab : a = b := char_eq_of_toNat h
            subst hab
            rcases ih bs with h' | h' | h'
            · exact Or.inl (by simp [charsLT, h'])
            · exact Or.inr (Or.inl (by simp [charsLT, h']))
            · exact Or.inr (Or.inr (by rw [h']))
          · exact Or.inr (Or.inl (by simp [charsLT, h]))

theorem charsLT_asymm : ∀ as bs : List Char,
    charsLT as bs = true → charsLT bs as = false := by
  intro as
  induction as with
  | nil =>
      intro bs h
      cases bs with
      | nil => cases h
      | cons b bs => rfl
  | cons a as ih =>
      intro bs h
      cases bs with
      | nil => cases h
      | cons b bs =>
          unfold charsLT at h ⊢
          rcases Nat.lt_trichotomy a.toNat b.toNat with h' | h' | h'
          · rw [if_neg (Nat.lt_asymm h'), if_pos h']
          · rw [if_neg (h' ▸ Nat.lt_irrefl _), if_neg (h' ▸ Nat.lt_irrefl _)]
            rw [if_neg (h' ▸ Nat.lt_irrefl _), if_neg (h' ▸ Nat.lt_irrefl _)] at h
            exact ih bs h
          · rw [if_neg (Nat.lt_asymm h'), if_pos h'] at h
            cases h

theorem charsLT_trans : ∀ as bs cs : List Char,
    charsLT as bs = true → charsLT bs cs = true → charsLT as cs = true := by
  intro as
  induction as with
  | nil =>
      intro bs cs h1 h2
      cases bs with
      | nil => cases h1
      | cons b bs =>
          cases cs with
          | nil => cases h2
          | cons c cs => rfl
  | cons a as ih =>
      intro bs cs h1 h2
      cases bs with
      | nil => cases h1
      | cons b bs =>
          cases cs with
          | nil => cases h2
          | cons c cs =>
              unfold charsLT at h1 h2 ⊢
              rcases Nat.lt_trichotomy a.toNat b.toNat with hab | hab | hab <;>
                rcases Nat.lt_trichotomy b.toNat c.toNat with hbc | hbc | hbc
              · rw [if_pos (Nat.lt_trans hab hbc)]
              · rw [if_pos (hbc ▸ hab)]
              · rw [if_neg (Nat.lt_asymm hbc), if_pos hbc] at h2
                cases h2
              · rw [if_pos (hab ▸ hbc)]
              · have hac : a.toNat = c.toNat := hab.trans hbc
                rw [if_neg (hac ▸ Nat.lt_irrefl _), if_neg (hac ▸ Nat.lt_irrefl _)]
                rw [if_neg (hab ▸ Nat.lt_irrefl _), if_neg (hab ▸ Nat.lt_irrefl _)] at h1
                rw [if_neg (hbc ▸ Nat.lt_irrefl _), if_neg (hbc ▸ Nat.lt_irrefl _)] at h2
                exact ih bs cs h1 h2
              · rw [if_neg (Nat.lt_asymm hbc), if_pos hbc] at h2
                cases h2
              · rw [if_neg (Nat.lt_asymm hab), if_pos hab] at h1
                cases h1
              · rw [if_neg (Nat.lt_asymm hab), if_pos hab] at h1
                cases h1
              · rw [if_neg (Nat.lt_asymm hab), if_pos hab] at h1
                cases h1

theorem charsLT_irrefl : ∀ as : List Char, charsLT as as = false := by
  intro as
  induction as with
  | nil => rfl
  | cons a as ih =>
      unfold charsLT
      rw [if_neg (Nat.lt_irrefl _), if_neg (Nat.lt_irrefl _)]
      exact ih

theorem string_eq_of_data {a b : String} (h : a.data = b.data) : a = b := by
  cases a
  cases b
  simp only at h
  rw [h]

theorem strLT_trichotomy (a b : String) :
    strLT a b = true ∨ strLT b a = true ∨ a = b := by
  rcases charsLT_trichotomy a.data b.data with h | h | h
  · exact Or.inl h
  · exact Or.inr (Or.inl h)
  · exact Or.inr (Or.inr (string_eq_of_data h))

theorem strLT_asymm {a b : String} (h : strLT a b = true) : strLT b a = false :=
  charsLT_asymm a.data b.data h

theorem strLT_trans {a b c : String} (h1 : strLT a b = true) (h2 : strLT b c = true) :
    strLT a c = true :=
  charsLT_trans a.data b.data c.data h1 h2

theorem strLT_irrefl (a : String) : strLT a a = false := charsLT_irrefl a.data

theorem strLE_iff (a b : String) : strLE a b = true ↔ charsLT b.data a.data = false := by
  unfold strLE
  cases h : charsLT b.data a.data <;> simp

theorem strLE_refl (a : String) : strLE a a = true :=
  (strLE_iff a a).mpr (charsLT_irrefl a.data)

theorem strLE_total (a b : String) : strLE a b = true ∨ strLE b a = true := by
  rcases charsLT_trichotomy a.data b.data with h | h | h
  · exact Or.inl ((strLE_iff a b).mpr (charsLT_asymm _ _ h))
  · exact Or.inr ((strLE_iff b a).mpr (charsLT_asymm _ _ h))
  · exact Or.inl ((strLE_iff a b).mpr (by rw [h]; exact charsLT_irrefl _))

theorem strLE_trans {a b c : String} (h1 : strLE a b = true) (h2 : strLE b c = true) :
    strLE a c = true := by
  rw [strLE_iff] at h1 h2 ⊢
  by_contra hca
  have hca' : charsLT c.data a.data = true := by
    cases h : charsLT c.data a.data
    · exact absurd h hca
    · rfl
  rcases charsLT_trichotomy c.data b.data with h | h | h
  · rw [h] at h2; cases h2
  · have := charsLT_trans b.data c.data a.data h hca'
    rw [this] at h1; cases h1
  · rw [h] at hca'
    rw [hca'] at h1
    cases h1

theorem strLE_antisymm {a b : String} (h1 : strLE a b = true) (h2 : strLE b a = true) :
    a = b := by
  rw [strLE_iff] at h1 h2
  rcases charsLT_trichotomy a.data b.data with h | h | h
  · rw [h] at h2; cases h2
  · rw [h] at h1; cases h1
  · exact string_eq_of_data h

theorem strLT_le {a b : String} (h : strLT a b = true) : strLE a b = true :=
  (strLE_iff a b).mpr (charsLT_asymm a.data b.data h)

theorem strLT_of_le_ne {a b : String} (h : strLE a b = true) (hne : a ≠ b) :
    strLT a b = true := by
  rw [strLE_iff] at h
  rcases charsLT_trichotomy a.data b.data with h' | h' | h'
  · exact h'
  · rw [h'] at h; cases h
  · exact absurd (string_eq_of_data h') hne

theorem strLT_not_le {a b : String} (h : strLT a b = true) : strLE b a = false := by
  unfold strLE
  unfold strLT at h
  rw [h]
  rfl

/-- The month-abbreviation table `months` of `get_ndoc_data`. -/
def MONTHS : List (String × String) :=
  [("Jan", "01"), ("Feb", "02"), ("Mar", "03"), ("Apr", "04"),
   ("May", "05"), ("Jun", "06"), ("Jul", "07"), ("Aug", "08"),
   ("Sep", "09"), ("Oct", "10"), ("Nov", "11"), ("Dec", "12")]

/-- Errors raised by `get_ndoc_data` (`ValueError`/`KeyError`). -/
inductive ExtractErr where
  /-- `could not parse date` (`ValueError`). -/
  | badDate : ExtractErr
  /-- `months[...]` lookup failure on a date whose month field matched
  `[A-Z][a-z]{2}` but is not a month abbreviation (`KeyError`). -/
  | badMonth : ExtractErr
  /-- `duplicate N...` (`ValueError`), with the offending number. -/
  | duplicate : String → ExtractErr
deriving DecidableEq

/-- `\s+` followed by the rest of the line: requires at least one
whitespace character and strips the whole run. -/
def dropWsRun : List Char → Option (List Char)
  | [] => none
  | c :: rest => if isWs c then some (rest.dropWhile isWs) else none

/-- First date grammar of `get_ndoc_data`:
`(20[0-2][0-9])/([01][0-9])/([0-3][0-9])\s+(.*)`, yielding the
canonical `YYYY-MM-DD` string and the rest of the line. -/
def parseDateISO : List Char → Option (String × List Char)
  | a :: b :: y2 :: y3 :: s1 :: m0 :: m1 :: s2 :: d0 :: d1 :: rest =>
      if a = '2' && b = '0' && ('0' ≤ y2 && y2 ≤ '2') && isDig y3
          && s1 = '/' && (m0 = '0' || m0 = '1') && isDig m1
          && s2 = '/' && ('0' ≤ d0 && d0 ≤ '3') && isDig d1 then
        match dropWsRun rest with
        | some r =>
            some (String.mk [a, b, y2, y3, '-', m0, m1, '-', d0, d1], r)
        | none => none
      else none
  | _ => none

/-- Second date grammar:
`([0-3][0-9])-([A-Z][a-z]{2})-(200[1-5])\s+(.*)`.  The month field is
matched by its character classes only; the `months[...]` lookup happens
after the match and a failure there is the `KeyError`
(`ExtractErr.badMonth`), not the `could not parse date` error. -/
def parseDateDMY4 : List Char → Option (Except ExtractErr (String × List Char))
  | d0 :: d1 :: s1 :: c0 :: c1 :: c2 :: s2 :: a :: b :: c :: y3 :: rest =>
      if ('0' ≤ d0 && d0 ≤ '3') && isDig d1 && s1 = '-'
          && ('A' ≤ c0 && c0 ≤ 'Z') && ('a' ≤ c1 && c1 ≤ 'z')
          && ('a' ≤ c2 && c2 ≤ 'z') && s2 = '-'
          && a = '2' && b = '0' && c = '0' && ('1' ≤ y3 && y3 ≤ '5') then
        match dropWsRun rest with
        | some r =>
            some (match MONTHS.lookup (String.mk [c0, c1, c2]) with
              | some mm =>
                  .ok (String.mk ([a, b, c, y3, '-'] ++ mm.data
                        ++ ['-', d0, d1]), r)
              | none => .error .badMonth)
        | none => none
      else none
  | _ => none

/-- Third date grammar:
`([0-3][0-9])[- ]([A-Z][a-z]{2})[- ]([089][0-9])\s+(.*)`, with the
19xx/20xx split: a two-digit year starting with `0` becomes `20yy`,
otherwise `19yy`.  Month lookup as in `parseDateDMY4`. -/
def parseDateDMY2 : List Char → Option (Except ExtractErr (String × List Char))
  | d0 :: d1 :: s1 :: c0 :: c1 :: c2 :: s2 :: y0 :: y1 :: rest =>
      if ('0' ≤ d0 && d0 ≤ '3') && isDig d1 && (s1 = '-' || s1 = ' ')
          && ('A' ≤ c0 && c0 ≤ 'Z') && ('a' ≤ c1 && c1 ≤ 'z')
          && ('a' ≤ c2 && c2 ≤ 'z') && (s2 = '-' || s2 = ' ')
          && (y0 = '0' || y0 = '8' || y0 = '9') && isDig y1 then
        match dropWsRun rest with
        | some r =>
            some (match MONTHS.lookup (String.mk [c0, c1, c2]) with
              | some mm =>
                  let cent : List Char := if y0 = '0' then ['2', '0'] else ['1', '9']
                  .ok (String.mk (cent ++ [y0, y1, '-'] ++ mm.data
                        ++ ['-', d0, d1]), r)
              | none => .error .badMonth)
        | none => none
      else none
  | _ => none

/-- The date-parsing cascade of `get_ndoc_data` (source lines 105-129):
try the ISO grammar, then `DD-Mon-YYYY`, then the two-digit-year
grammar, and raise `could not parse date` when none matches. -/
def parseDateLine (cs : List Char) : Except ExtractErr (String × List Char) :=
  match parseDateISO cs with
  | some res => .ok res
  | none =>
      match parseDateDMY4 cs with
      | some res => res
      | none =>
          match parseDateDMY2 cs with
          | some res => res
          | none => .error .badDate

/-- A log line after the two layout regular expressions have been
applied: the document number, the optional (already URL-normalized)
link, and the rest of the line (date token followed by the
author/title remainder).  HTML fetching and layout parsing are
external-collaborator territory in the repository design. -/
structure RawLine where
  nnum : String
  link : Option String
  rest : String
deriving DecidableEq

/-- One extracted record.  The author/title remainder `body` is kept as
the raw string: its normalization runs through the external
HTML-to-Markdown collaborator and no claim constrains it. -/
structure NRec where
  link : Option String
  date : String
  body : String
deriving DecidableEq

/-- The record-accumulation loop of `get_ndoc_data`: skip lines marked
`Not assigned.`, parse the date, and fail on a duplicate number
(source lines 162-163) before inserting. -/
def getNdocLoop : List (String × NRec) → List RawLine →
    Except ExtractErr (List (String × NRec))
  | acc, [] => .ok acc
  | acc, l :: ls =>
    if l.rest = "Not assigned." then getNdocLoop acc ls
    else
      match parseDateLine l.rest.data with
      | .error e => .error e
      | .ok (date, body) =>
          if (acc.lookup l.nnum).isSome then .error (.duplicate l.nnum)
          else getNdocLoop (acc ++ [(l.nnum, ⟨l.link, date, String.mk body⟩)]) ls

/-- `get_ndoc_data`, from the post-layout stage on: either the full
record mapping in line order, or the first fatal error. -/
def get_ndoc_data (lines : List RawLine) : Except ExtractErr (List (String × NRec)) :=
  getNdocLoop [] lines

/-! ### Classification (`classify_docs`, source lines 563-673) -/

/-- `OVERRIDE_CLASS`: the per-record classification override table.
(The source writes key `'284'` twice with the same value; an
association-list lookup and the Python dict agree on its value.) -/
def OVERRIDE_CLASS : List (String × String) := [
  ("3584", "cm"), ("3408", "cadm"), ("3328", "cpub"), ("3251", "cm"),
  ("3171", "cadm"), ("3118", "cadm"), ("3088", "cpub"), ("3057", "cpub"),
  ("3054", "cpub"), ("3005", "cpub"), ("3002", "cadm"), ("2947", "cadm"),
  ("2784", "cadm"), ("2733", "cpub"), ("2676", "cpub"), ("2664", "cadm"),
  ("2652", "cadm"), ("2627", "cadm"), ("2613", "cadm"), ("2577", "cpub"),
  ("2240", "cpub"), ("2183", "cadm"), ("2181", "cm"), ("2177", "cpub"),
  ("2176", "cpub"), ("2131", "c"), ("2071", "cadm"), ("2058", "cpub"),
  ("2011", "cpub"), ("2010", "cpub"), ("2004", "cpub"), ("1974", "cpub"),
  ("1968", "cpub"), ("1950", "cpub"), ("1949", "cpub"), ("1946", "cpub"),
  ("1945", "cpub"), ("1940", "cpub"), ("1939", "cpub"), ("1933", "cm"),
  ("1926", "cpub"), ("1924", "cpub"), ("1919", "cpub"), ("1912", "cpub"),
  ("1897", "cpub"), ("1896", "cpub"), ("1892", "cpub"), ("1891", "cpub"),
  ("1862", "cpub"), ("1852", "cpub"), ("1851", "cpub"), ("1846", "cpub"),
  ("1836", "cpub"), ("1835", "cpub"), ("1832", "cpub"), ("1814", "cpub"),
  ("1810", "cpub"), ("1809", "cpub"), ("1805", "cadm"), ("1799", "cm"),
  ("1797", "cpub"), ("1796", "cpub"), ("1790", "cpub"), ("1789", "cpub"),
  ("1788", "cm"), ("1785", "cpub"), ("1784", "cpub"), ("1781", "cpub"),
  ("1778", "cpub"), ("1775", "cpub"), ("1774", "cpub"), ("1772", "cfptca"),
  ("1761", "cpub"), ("1760", "c"), ("1758", "cpub"), ("1757", "cpub"),
  ("1756", "cpub"), ("1724", "cpub"), ("1722", "cpub"), ("1709", "cfptca"),
  ("1701", "c"), ("1700", "c"), ("1699", "c"), ("1689", "cfptcm"),
  ("1686", "cm"), ("1680", "cpub"), ("1679", "cpub"), ("1678", "cfptca"),
  ("1676", "cpub"), ("1669", "cpub"), ("1664", "cpub"), ("1663", "cpub"),
  ("1657", "cpub"), ("1656", "cpub"), ("1644", "cadm"), ("1638", "cadm"),
  ("1632", "cpub"), ("1631", "cpub"), ("1624", "cpub"), ("1622", "cadm"),
  ("1616", "cadm"), ("1615", "cpub"), ("1609", "cpub"), ("1608", "cadm"),
  ("1607", "cadm"), ("1606", "cpub"), ("1605", "cpub"), ("1591", "cpub"),
  ("1590", "cadm"), ("1583", "c"), ("1579", "cpub"), ("1578", "cpub"),
  ("1574", "cm"), ("1570", "cpub"), ("1569", "cpub"), ("1455", "cm"),
  ("1407", "cadm"), ("1393", "cpub"), ("1390", "cadm"), ("1388", "cpub"),
  ("1336", "cpub"), ("1314", "cadm"), ("1312", "cpub"), ("1307", "cadm"),
  ("1292", "cpub"), ("1290", "cpub"), ("1275", "cpub"), ("1274", "cadm"),
  ("1268", "cadm"), ("1256", "cpub"), ("1247", "c"), ("1245", "cadm"),
  ("1244", "cpub"), ("1243", "cpub"), ("1242", "cpub"), ("1241", "cpub"),
  ("1235", "cpub"), ("1230", "cadm"), ("1225", "cpub"), ("1205", "cpub"),
  ("1202", "cpub"), ("1201", "cpub"), ("1199", "cpub"), ("1197", "c"),
  ("1193", "cpub"), ("1192", "cadm"), ("1191", "cpub"), ("1180", "cpub"),
  ("1173", "cpub"), ("1172", "cpub"), ("1169", "cpub"), ("1167", "cadm"),
  ("1161", "cpub"), ("1154", "cpub"), ("1150", "cpub"), ("1149", "cpub"),
  ("1147", "cpub"), ("1146", "cpub"), ("1143", "cpub"), ("1142", "cpub"),
  ("1137", "cpub"), ("1135", "cpub"), ("1129", "cadm"), ("1127", "cadm"),
  ("1126", "cpub"), ("1125", "cpub"), ("1124", "cpub"), ("1120", "cpub"),
  ("1118", "c"), ("1107", "cpub"), ("1106", "c"), ("1096", "cpub"),
  ("1095", "cpub"), ("1089", "cpub"), ("1087", "cpub"), ("1082", "cadm"),
  ("1077", "cpub"), ("1071", "cpub"), ("1060", "cpub"), ("1059", "cpub"),
  ("1057", "cpub"), ("1055", "cpub"), ("1051", "cpub"), ("1040", "cpub"),
  ("1038", "cadm"), ("1031", "cpub"), ("1030", "cadm"), ("1027", "c"),
  ("1021", "cpub"), ("1016", "cpub"), ("1010", "cpub"), ("1005", "cpub"),
  ("998", "cpub"), ("996", "cpub"), ("994", "cadm"), ("966", "cadm"),
  ("957", "cpub"), ("949", "cpub"), ("948", "cpub"), ("940", "cpub"),
  ("937", "cpub"), ("932", "cpub"), ("931", "cadm"), ("930", "cadm"),
  ("925", "c"), ("922", "cadm"), ("908", "c"), ("906", "cadm"),
  ("904", "cmm"), ("897", "cpub"), ("895", "c"), ("881", "cpub"),
  ("854", "cpub"), ("850", "cpub"), ("878", "cpub"), ("806", "cpub"),
  ("802", "cpub"), ("800", "cpub"), ("798", "cadm"), ("679", "cadm"),
  ("674", "cpub"), ("667", "cpub"), ("643", "cpub"), ("627", "cadm"),
  ("624", "cpub"), ("621", "cpub"), ("610", "cadm"), ("585", "cadm"),
  ("577", "cadm"), ("559", "cpub"), ("556", "cadm"), ("554", "cadm"),
  ("553", "cadm"), ("549", "cm"), ("544", "cpub"), ("543", "cadm"),
  ("542", "cadm"), ("536", "cpub"), ("524", "cpub"), ("491", "cpub"),
  ("482", "cm"), ("460", "cadm"), ("457", "cpub"), ("442", "cadm"),
  ("441", "cpub"), ("440", "cpub"), ("439", "cpub"), ("438", "cpub"),
  ("437", "cm"), ("433", "c"), ("428", "cadm"), ("425", "cpub"),
  ("423", "cpub"), ("412", "cpub"), ("403", "cpub"), ("399", "cadm"),
  ("394", "cadm"), ("385", "cpub"), ("382", "cadm"), ("380", "cadm"),
  ("377", "cpub"), ("373", "cadm"), ("366", "cadm"), ("360", "cadm"),
  ("351", "cadm"), ("347", "cpub"), ("346", "cadm"), ("341", "cadm"),
  ("337", "cadm"), ("333", "cpub"), ("332", "cpub"), ("329", "cadm"),
  ("325", "cpub"), ("315", "cadm"), ("314", "cadm"), ("294", "cm"),
  ("293", "cm"), ("290", "cpub"), ("289", "cpub"), ("288", "cpub"),
  ("284", "cpub"), ("277", "cpub"), ("266", "cm"), ("263", "cpub"),
  ("261", "cadm"), ("260", "cpub"), ("259", "cpub"), ("254", "cadm"),
  ("284", "cpub"), ("246", "cpub"), ("245", "cpub"), ("233", "cadm"),
  ("232", "cadm"), ("231", "cadm"), ("229", "cm"), ("210", "cpub"),
  ("205", "cpub"), ("192", "cadm"), ("191", "cadm"), ("189", "c"),
  ("187", "cadm"), ("182", "cpub"), ("180", "cpub"), ("179", "cadm"),
  ("178", "cadm"), ("177", "cadm"), ("174", "cm"), ("169", "cpub"),
  ("163", "cadm"), ("145", "cpub"), ("137", "cm"), ("132", "cadm"),
  ("127", "cm"), ("119", "cpub"), ("116", "cpub"), ("109", "cm"),
  ("108", "cadm"), ("104", "cpub"), ("101", "cpub"), ("097", "cadm"),
  ("093", "cadm"), ("080", "cadm"), ("078", "cadm"), ("073", "c"),
  ("067", "cpub"), ("064", "cadm"), ("061", "cadm"), ("058", "cadm"),
  ("057", "cadm"), ("048", "cadm"), ("045", "cadm"), ("039", "cadm"),
  ("038", "cm"), ("037", "cadm"), ("036", "cadm"), ("021", "cadm"),
  ("013", "cm")]

/-- The ordered if/elif classification chain of `classify_docs` (source
lines 579-671), applied to the main title. -/
def heuristicClass (mt : String) : String :=
  let l := lowerStr mt
  if hasSub "working draft" l then "cpub"
  else if hasSub "committee draft" l then "cpub"
  else if hasSub "editor\x27s report" l then "cpub"
  else if hasSub "editor report" l then "cpub"
  else if hasSub "editor progress report" l then "cpub"
  else if hasSub "dts draft" l then "cpub"
  else if hasSub "revision draft" l then "cpub"
  else if hasSub "dis draft" l then "cpub"
  else if hasSub "examples of undefined behavior" l then "cpub"
  else if hasSub "ts proposal" l then "cpub"
  else if hasSub "generalized function calls" l then "cpub"
  else if hasSub "compendium" l then "cpub"
  else if hasSub "cr summary" l then "cpub"
  else if hasSub "clarification request summary" l then "cpub"
  else if hasSub "dr report" l then "cpub"
  else if hasSub "defect report summary" l then "cpub"
  else if hasSub "thread-based parallelism" l then "cpub"
  else if hasSub "latex" l then "cpub"
  else if hasSub "dts 17961" l then "cpub"
  else if hasSub "wdtr" l then "cpub"
  else if hasSub "issue log" l then "cpub"
  else if hasSub "educational undefined behavior" l then "cpub"
  else if hasSub "fp teleconference" l && hasSub "agenda" l then "cfptca"
  else if hasSub "c floating point study group teleconference" l then "cfptca"
  else if hasSub "fp teleconference" l && (hasSub "minutes" l || hasSub "notes" l) then "cfptcm"
  else if hasSub "fp meeting minutes" l then "cfptcm"
  else if hasSub "agenda" l then "cma"
  else if hasSub "minutes" l then "cmm"
  else if hasSub "agneda" l then "cma"
  else if hasSub "venue" l then "cm"
  else if hasSub "invitation" l then "cm"
  else if hasSub "meeting information" l then "cm"
  else if hasSub "hotel" l then "cm"
  else if hasSub "charter" l then "cadm"
  else if hasSub "schedule" l then "cadm"
  else if hasSub "liaison report" l then "cadm"
  else if hasSub "liaison statement" l then "cadm"
  else if hasSub "compat teleconference" l then "cadm"
  else if hasSub "omnibus" l then "cadm"
  else if hasSub "business plan" l then "cadm"
  else if hasSub "standing document" l then "cadm"
  else if hasSub "misra" l then "cadm"
  else if hasSub "call for" l then "cadm"
  else if hasSub "progress report" l then "cadm"
  else if hasSub "annual report" l then "cadm"
  else "c"

/-- The classification chain as an explicit ordered `(predicate, class)`
list over the lowered main title, first match wins, default `"c"`. -/
def CLASS_PREDS : List ((String → Bool) × String) := [
  (fun l => hasSub "working draft" l, "cpub"),
  (fun l => hasSub "committee draft" l, "cpub"),
  (fun l => hasSub "editor\x27s report" l, "cpub"),
  (fun l => hasSub "editor report" l, "cpub"),
  (fun l => hasSub "editor progress report" l, "cpub"),
  (fun l => hasSub "dts draft" l, "cpub"),
  (fun l => hasSub "revision draft" l, "cpub"),
  (fun l => hasSub "dis draft" l, "cpub"),
  (fun l => hasSub "examples of undefined behavior" l, "cpub"),
  (fun l => hasSub "ts proposal" l, "cpub"),
  (fun l => hasSub "generalized function calls" l, "cpub"),
  (fun l => hasSub "compendium" l, "cpub"),
  (fun l => hasSub "cr summary" l, "cpub"),
  (fun l => hasSub "clarification request summary" l, "cpub"),
  (fun l => hasSub "dr report" l, "cpub"),
  (fun l => hasSub "defect report summary" l, "cpub"),
  (fun l => hasSub "thread-based parallelism" l, "cpub"),
  (fun l => hasSub "latex" l, "cpub"),
  (fun l => hasSub "dts 17961" l, "cpub"),
  (fun l => hasSub "wdtr" l, "cpub"),
  (fun l => hasSub "issue log" l, "cpub"),
  (fun l => hasSub "educational undefined behavior" l, "cpub"),
  (fun l => hasSub "fp teleconference" l && hasSub "agenda" l, "cfptca"),
  (fun l => hasSub "c floating point study group teleconference" l, "cfptca"),
  (fun l => hasSub "fp teleconference" l && (hasSub "minutes" l || hasSub "notes" l), "cfptcm"),
  (fun l => hasSub "fp meeting minutes" l, "cfptcm"),
  (fun l => hasSub "agenda" l, "cma"),
  (fun l => hasSub "minutes" l, "cmm"),
  (fun l => hasSub "agneda" l, "cma"),
  (fun l => hasSub "venue" l, "cm"),
  (fun l => hasSub "invitation" l, "cm"),
  (fun l => hasSub "meeting information" l, "cm"),
  (fun l => hasSub "hotel" l, "cm"),
  (fun l => hasSub "charter" l, "cadm"),
  (fun l => hasSub "schedule" l, "cadm"),
  (fun l => hasSub "liaison report" l, "cadm"),
  (fun l => hasSub "liaison statement" l, "cadm"),
  (fun l => hasSub "compat teleconference" l, "cadm"),
  (fun l => hasSub "omnibus" l, "cadm"),
  (fun l => hasSub "business plan" l, "cadm"),
  (fun l => hasSub "standing document" l, "cadm"),
  (fun l => hasSub "misra" l, "cadm"),
  (fun l => hasSub "call for" l, "cadm"),
  (fun l => hasSub "progress report" l, "cadm"),
  (fun l => hasSub "annual report" l, "cadm")]

/-- First-match-wins evaluation of an ordered predicate list, falling
through to the default plain-document class `"c"`. -/
def firstMatchClass : List ((String → Bool) × String) → String → String
  | [], _ => "c"
  | (p, c) :: rest, l => if p l then c else firstMatchClass rest l

/-- Class of one record: the heuristic chain on the main title, then the
unconditional per-record override (source lines 672-673). -/
def classifyClass (nnum mt : String) : String :=
  let h := heuristicClass mt
  match OVERRIDE_CLASS.lookup nnum with
  | some c => c
  | none => h

/-- The closed classification taxonomy. -/
def TAXONOMY : List String :=
  ["c", "cadm", "cpub", "cm", "cma", "cmm", "cfptca", "cfptcm"]

/-! ### Grouping (`classify_docs`, source lines 674-708) -/

/-- Tail of the update-reference pattern `[: ][Nn][0-9]+`: one separator
character, `N` or `n`, then a maximal nonempty digit run (the captured
group). -/
def matchSepNum : List Char → Option String
  | sep :: n :: rest =>
      if (sep = ':' || sep = ' ') && (n = 'N' || n = 'n') then
        let ds := rest.takeWhile isDig
        if ds.isEmpty then none else some (String.mk ds)
      else none
  | _ => none

/-- Match `[Uu]pdates?[: ][Nn][0-9]+` at the head of the list, with the
regex's greedy-then-backtrack handling of the optional `s`. -/
def matchUpdAt (cs : List Char) : Option String :=
  match cs with
  | c0 :: 'p' :: 'd' :: 'a' :: 't' :: 'e' :: rest =>
      if c0 = 'U' || c0 = 'u' then
        match rest with
        | 's' :: rest2 => (matchSepNum rest2).orElse fun _ => matchSepNum rest
        | _ => matchSepNum rest
      else none
  | _ => none

/-- `re.search('[Uu]pdates?[: ][Nn]([0-9]+)', ...)` (source line 699):
the captured number of the leftmost match, if any. -/
def findUpdates : List Char → Option String
  | [] => none
  | c :: rest => (matchUpdAt (c :: rest)).orElse fun _ => findUpdates rest

/-- `REMAP_TITLE`: normalization of known variant spellings of the same
logical main title, for grouping. -/
def REMAP_TITLE : List (String × String) := [
  ("`if`declarations", "`if` declarations"),
  ("`if` declarations, v5, wording improvements", "`if` declarations"),
  ("`if` declarations, v5.1, wording improvements", "`if` declarations"),
  ("Transparent Function Aliases", "Transparent Aliases"),
  ("Restartable and Non-Restartable Functions for Efficient Character Conversions",
   "Restartable Functions for Efficient Character Conversion"),
  ("Restartable Functions for Efficient Character Conversions",
   "Restartable Functions for Efficient Character Conversion"),
  ("The Big Array Size Survey", "Big Array Size Survey"),
  ("Improved \\_\\_attribute\\_\\_((cleanup(…))) through defer",
   "Improved \\_\\_attribute\\_\\_((cleanup(...))) through defer"),
  ("Improved \\_\\_attribute\\_\\_((cleanup(...))) Through defer",
   "Improved \\_\\_attribute\\_\\_((cleanup(...))) through defer"),
  ("Revision 2 Of Defect With Wording Of restrict Specification",
   "Defect with wording of restrict specification"),
  ("New pointer-proof keyword to determine array length", "New \\_Lengthof() operator"),
  ("New nelementsof() operator", "New \\_Lengthof() operator"),
  ("\\_Lengthof \\- New pointer-proof keyword to determine array length",
   "New \\_Lengthof() operator"),
  ("The `void`-_which-binds_, v2: typesafe parametric polymorphism",
   "The `void`-_which-binds_: typesafe parametric polymorphism"),
  ("embed Synchronization", "#embed Synchronization"),
  ("Literal suffixes for size\\_t", "Literal Suffixes for size\\_t"),
  ("C2y fopen \"p\" and bring fopen’s mode closer to POSIX",
   "fopen \"p\" and bring fopen’s mode closer to POSIX 202x"),
  ("Accessing arrays of character type", "Accessing byte arrays"),
  ("Usage of \"length\", \"size\", \"count\", etc. in context of retrieving array length",
   "Words used for retrieving number of elements in arrays and array-like objects across computer languages"),
  ("Obsolete implicitly octal literals",
   "Obsolete implicitly octal literals and add delimited escape sequences"),
  ("restrict atomic\\_flag creation", "Restrict atomic\\_flag creation"),
  ("Preprocessing integer expressions", "Preprocessor integer expressions"),
  ("Pitch for dialect directive", "Pitch for #dialect directive"),
  ("The C Standard Charter", "The C Standard charter"),
  ("Required JTC 1 Summary of ISO and IEC Codes of Conduct",
   "Updated JTC 1 Code of Conduct slide"),
  ("Resolved \\& discarded, III (updates 3504\\)", "Discarded"),
  ("Discarded, IV", "Discarded"),
  ("Discarded, V", "Discarded"),
  ("Quasi-literals", "Generic replacement"),
  ("add strsfx()", "add strsfx(), stpsfx(), wcssfx(), wcpsfx()"),
  ("add strpfx()", "add strpfx(), stppfx(), wcspfx(), and wcppfx()"),
  ("Additional String comparison functions to completement strcmp",
   "Additional String comparison functions to complement strcmp"),
  ("Add operators \\_Widthof, \\_Minof, \\_Maxof", "Add operators \\_Minof and \\_Maxof"),
  ("Composite types", "Composite Types"),
  ("Relax restrictions on standard attributes", "Standard prefixed attributes"),
  ("\\_Any\\_func\\_t \\- A Universal Function Pointer Storage Type",
   "\\_Any\\_func\\* \\- A Universal Function Pointer Storage Type"),
  ("Generic replacement (v. 2 of quasi-literals)", "Generic replacement"),
  ("Literal functions", "Function literals")]

/-- `OVERRIDE_GROUP_TITLE`: per-record grouping-key override. -/
def OVERRIDE_GROUP_TITLE : List (String × String) := [
  ("3141", "Composite types 2023")]

/-- One record of the shared per-record mapping, as annotated by the
classifier/grouper.  The main/auxiliary title split of source lines
568-578 is taken as input (see the header note). -/
structure ND where
  date : String
  author : String
  title : String
  maintitle : String
  auxtitle : Option String
  cls : String
  group : Finset String
deriving DecidableEq

/-- The shared mapping, in dict insertion order. -/
abbrev DState := List (String × ND)

/-- A record as it enters `classify_docs`. -/
structure InRec where
  date : String
  author : String
  title : String
  maintitle : String
  auxtitle : Option String
deriving DecidableEq

/-- The grouping key of a record: main title, normalized through
`REMAP_TITLE`, then overridden by `OVERRIDE_GROUP_TITLE` (source lines
675-679). -/
def groupTitle (nnum mt : String) : String :=
  let t := match REMAP_TITLE.lookup mt with
    | some r => r
    | none => mt
  match OVERRIDE_GROUP_TITLE.lookup nnum with
  | some o => o
  | none => t

/-- The classes eligible for title/update grouping (`('c', 'cadm')`). -/
def isGroupable (cls : String) : Bool := cls = "c" || cls = "cadm"

/-- First loop of `classify_docs`: initialize each group to the
singleton of the record's own number and assign the class. -/
def classifyPhase1 (inp : List (String × InRec)) : DState :=
  inp.map fun p =>
    (p.1, { date := p.2.date, author := p.2.author, title := p.2.title,
            maintitle := p.2.maintitle, auxtitle := p.2.auxtitle,
            cls := classifyClass p.1 p.2.maintitle, group := {p.1} })

/-- `by_title[key]`: the numbers of all groupable records whose grouping
key is `key`. -/
def byTitleSet (st : DState) (key : String) : Finset String :=
  ((st.filter fun p =>
      isGroupable p.2.cls && (groupTitle p.1 p.2.maintitle == key)).map Prod.fst).toFinset

/-- Second loop of `classify_docs` (source lines 682-689): each
groupable record's group absorbs all records sharing its grouping key. -/
def classifyPhase2 (st : DState) : DState :=
  st.map fun p =>
    if isGroupable p.2.cls then
      (p.1, { p.2 with group := p.2.group ∪ byTitleSet st (groupTitle p.1 p.2.maintitle) })
    else p

/-- The uncaught `KeyError` of `data[onum]` on a dangling update
reference (source line 704). -/
inductive GroupErr where
  | keyError : String → GroupErr
deriving DecidableEq

/-- The state change of a firing update step: the iterated record's
group becomes the union `g`, and every other member of `g` (lines
705-707) absorbs `g` into its group when the two differ. -/
def groupUpd (nnum : String) (g : Finset String) (p : String × ND) : String × ND :=
  if p.1 = nnum then (p.1, { p.2 with group := g })
  else if p.1 ∈ g then
    (if p.2.group = g then p else (p.1, { p.2 with group := p.2.group ∪ g }))
  else p

/-- The body of the fixpoint loop for one record (source lines 694-707):
if the record is groupable and its auxiliary title names an update
reference not yet in its group, absorb the referenced record's group
and propagate the union to every member of the enlarged group.  The
returned flag is the contribution to `changed`. -/
def updOp (st : DState) (nnum : String) : Except GroupErr (DState × Bool) :=
  match st.lookup nnum with
  | none => .ok (st, false)
  | some e =>
    if isGroupable e.cls then
      match e.auxtitle with
      | none => .ok (st, false)
      | some aux =>
        match findUpdates aux.data with
        | none => .ok (st, false)
        | some onum =>
          if onum ∈ e.group then .ok (st, false)
          else
            match st.lookup onum with
            | none => .error (.keyError onum)
            | some oe =>
              .ok (st.map (groupUpd nnum (e.group ∪ oe.group)), true)
    else .ok (st, false)

/-- One full pass of the fixpoint loop over all records in dict order. -/
def updPass (st : DState) : List String → Except GroupErr (DState × Bool)
  | [] => .ok (st, false)
  | k :: ks => do
      let (st1, c1) ← updOp st k
      let (st2, c2) ← updPass st1 ks
      .ok (st2, c1 || c2)

/-- The `while changed` loop (source lines 691-692), fuelled: `ok none`
means the fuel ran out before the fixpoint, `ok (some st)` that a full
pass made no change. -/
def updLoop (keys : List String) : Nat → DState → Except GroupErr (Option DState)
  | 0, _ => .ok none
  | fuel + 1, st => do
      let (st1, ch) ← updPass st keys
      if ch then updLoop keys fuel st1 else .ok (some st1)

/-- `classify_docs`: classification, title grouping, then the update
fixpoint loop. -/
def classify_docs (inp : List (String × InRec)) (fuel : Nat) :
    Except GroupErr (Option DState) :=
  let st := classifyPhase2 (classifyPhase1 inp)
  updLoop (st.map Prod.fst) fuel st

/-! ### Auto-numbered identifier assignment (`generate_autonum_docs`,
source lines 993-1019) -/

/-- Total order on document numbers used to realize Python's
`sorted(..., key=int)`: by numeric value, ties (which do not occur on
real log keys) broken by the string to make the order antisymmetric. -/
def numLE (a b : String) : Prop :=
  natOf a < natOf b ∨ (natOf a = natOf b ∧ strLE a b = true)

instance : DecidableRel numLE := fun _ _ =>
  inferInstanceAs (Decidable (_ ∨ _))

theorem numLE_trans {a b c : String} (hab : numLE a b) (hbc : numLE b c) : numLE a c := by
  rcases hab with h | ⟨h, h'⟩ <;> rcases hbc with g | ⟨g, g'⟩
  · exact Or.inl (h.trans g)
  · exact Or.inl (g ▸ h)
  · exact Or.inl (h ▸ g)
  · exact Or.inr ⟨h.trans g, strLE_trans h' g'⟩

theorem numLE_antisymm {a b : String} (hab : numLE a b) (hba : numLE b a) : a = b := by
  rcases hab with h | ⟨h, h'⟩ <;> rcases hba with g | ⟨g, g'⟩
  · exact absurd (h.trans g) (lt_irrefl _)
  · exact absurd h (g ▸ lt_irrefl _)
  · exact absurd g (h ▸ lt_irrefl _)
  · exact strLE_antisymm h' g'

theorem numLE_total (a b : String) : numLE a b ∨ numLE b a := by
  rcases Nat.lt_trichotomy (natOf a) (natOf b) with h | h | h
  · exact Or.inl (Or.inl h)
  · rcases strLE_total a b with h' | h'
    · exact Or.inl (Or.inr ⟨h, h'⟩)
    · exact Or.inr (Or.inr ⟨h.symm, h'⟩)
  · exact Or.inr (Or.inl h)

/-- Insertion into a `numLE`-sorted list. -/
def insNum (a : String) : List String → List String
  | [] => [a]
  | b :: bs => if numLE a b then a :: b :: bs else b :: insNum a bs

theorem insNum_left_comm (a b : String) (l : List String) :
    insNum a (insNum b l) = insNum b (insNum a l) := by
  induction l with
  | nil =>
      by_cases hab : numLE a b
      · by_cases hba : numLE b a
        · rw [numLE_antisymm hab hba]
        · show insNum a [b] = insNum b [a]
          simp only [insNum, if_pos hab, if_neg hba]
      · have hba : numLE b a := (numLE_total a b).resolve_left hab
        show insNum a [b] = insNum b [a]
        simp only [insNum, if_neg hab, if_pos hba]
  | cons c cs ih =>
      by_cases hbc : numLE b c
      · by_cases hac : numLE a c
        · have e1 : insNum b (c :: cs) = b :: c :: cs := by
            simp only [insNum, if_pos hbc]
          have e2 : insNum a (c :: cs) = a :: c :: cs := by
            simp only [insNum, if_pos hac]
          by_cases hab : numLE a b
          · by_cases hba : numLE b a
            · rw [numLE_antisymm hab hba]
            · have e3 : insNum a (b :: c :: cs) = a :: b :: c :: cs := by
                simp only [insNum, if_pos hab]
              have e4 : insNum b (a :: c :: cs) = a :: insNum b (c :: cs) := by
                simp only [insNum, if_neg hba]
              rw [e1, e2, e3, e4, e1]
          · have hba : numLE b a := (numLE_total a b).resolve_left hab
            have e3 : insNum a (b :: c :: cs) = b :: insNum a (c :: cs) := by
              simp only [insNum, if_neg hab]
            have e4 : insNum b (a :: c :: cs) = b :: a :: c :: cs := by
              simp only [insNum, if_pos hba]
            rw [e1, e2, e3, e4, e2]
        · have hab : ¬ numLE a b := fun h => hac (numLE_trans h hbc)
          have e1 : insNum b (c :: cs) = b :: c :: cs := by
            simp only [insNum, if_pos hbc]
          have e2 : insNum a (c :: cs) = c :: insNum a cs := by
            simp only [insNum, if_neg hac]
          have e3 : insNum a (b :: c :: cs) = b :: insNum a (c :: cs) := by
            simp only [insNum, if_neg hab]
          have e4 : insNum b (c :: insNum a cs) = b :: c :: insNum a cs := by
            simp only [insNum, if_pos hbc]
          rw [e1, e2, e3, e4, e2]
      · by_cases hac : numLE a c
        · have hba : ¬ numLE b a := fun h => hbc (numLE_trans h hac)
          have e1 : insNum b (c :: cs) = c :: insNum b cs := by
            simp only [insNum, if_neg hbc]
          have e2 : insNum a (c :: cs) = a :: c :: cs := by
            simp only [insNum, if_pos hac]
          have e3 : insNum a (c :: insNum b cs) = a :: c :: insNum b cs := by
            simp only [insNum, if_pos hac]
          have e4 : insNum b (a :: c :: cs) = a :: insNum b (c :: cs) := by
            simp only [insNum, if_neg hba]
          rw [e1, e2, e3, e4, e1]
        · have e1 : insNum b (c :: cs) = c :: insNum b cs := by
            simp only [insNum, if_neg hbc]
          have e2 : insNum a (c :: cs) = c :: insNum a cs := by
            simp only [insNum, if_neg hac]
          have e3 : insNum a (c :: insNum b cs) = c :: insNum a (insNum b cs) := by
            simp only [insNum, if_neg hac]
          have e4 : insNum b (c :: insNum a cs) = c :: insNum b (insNum a cs) := by
            simp only [insNum, if_neg hbc]
          rw [e1, e2, e3, e4, ih]

instance : LeftCommutative insNum := ⟨insNum_left_comm⟩

/-- `sorted(group, key=int)`, realized as a kernel-computable insertion
sort over the underlying multiset (well-defined because insertion for a
linear order is left-commutative). -/
def numSorted (g : Finset String) : List String :=
  Multiset.foldr insNum [] g.val

/-- `max(int(n) for n in group)` (0 on the empty set, which never
occurs: every group contains its own record). -/
def maxNum (g : Finset String) : Nat :=
  ((numSorted g).map natOf).foldl max 0

/-- `data[n]['date']`; group members are always keys of the mapping, so
the `""` default is never consulted on pipeline states. -/
def dateOf (st : DState) (n : String) : String :=
  match st.lookup n with
  | some e => e.date
  | none => ""

/-- Strict lexicographic order on `(date, int(n))` sort keys, Python's
tuple `<`. -/
def keyLT (a b : String × Nat) : Bool :=
  strLT a.1 b.1 || (a.1 == b.1 && decide (a.2 < b.2))

/-- Non-strict lexicographic order on sort keys. -/
def keyLE (a b : String × Nat) : Bool :=
  strLT a.1 b.1 || (a.1 == b.1 && decide (a.2 ≤ b.2))

/-- The member sort keys `(data[n]['date'], int(n))` of a group. -/
def memberKeys (st : DState) (g : Finset String) : List (String × Nat) :=
  (numSorted g).map fun n => (dateOf st n, natOf n)

/-- `min((data[n]['date'], int(n)) for n in group)`: Python `min` keeps
the current minimum on ties, and tuples are compared lexicographically.
The result does not depend on iteration order because ties are
identical pairs. -/
def minKey (st : DState) (g : Finset String) : String × Nat :=
  match memberKeys st g with
  | [] => ("", 0)
  | x :: xs => xs.foldl (fun m y => if keyLT y m then y else m) x

/-- The `convert_doc` condition of source line 999:
`(date >= cutoff and nnum not in extra_exclude) or nnum in
extra_include`, evaluated at the group's maximal-numbered record. -/
def autonumQualifies (cutoff : String) (ex inc : Finset String)
    (k date : String) : Bool :=
  (strLE cutoff date && !(decide (k ∈ ex))) || decide (k ∈ inc)

/-- One auto-numbered logical document. -/
structure CDoc where
  sortkey : String × Nat
  title : String
  author : String
  nums : List String
  id : String
deriving DecidableEq

/-- The per-group document record built at the group's representative
(source lines 1005-1011), before sorting and identifier assignment. -/
def mkCDoc (st : DState) (e : ND) : CDoc :=
  { sortkey := minKey st e.group, title := e.maintitle,
    author := e.author, nums := numSorted e.group, id := "" }

/-- The unsorted document list: one entry per group whose
maximal-numbered member is the iterated record and whose representative
qualifies (source lines 997-1012). -/
def autonumDocs0 (st : DState) (dc cutoff : String) (ex inc : Finset String) :
    List CDoc :=
  st.filterMap fun p =>
    if p.2.cls = dc ∧ natOf p.1 = maxNum p.2.group
        ∧ autonumQualifies cutoff ex inc p.1 p.2.date = true then
      some (mkCDoc st p.2)
    else none

/-- Stable insertion used to realize Python's stable `list.sort(key=...)`:
a new element goes after every already-placed element whose key is
less than or equal to its own. -/
def insDoc : List CDoc → CDoc → List CDoc
  | [], x => [x]
  | y :: ys, x => if keyLE y.sortkey x.sortkey then y :: insDoc ys x else x :: y :: ys

/-- `docs.sort(key=lambda x: x['sortkey'])`: stable, ascending. -/
def sortDocs (l : List CDoc) : List CDoc := l.foldl insDoc []

/-- Identifier assignment (source lines 1015-1016):
`'%s%d' % (doc_class.upper(), num)` for `num` counting from the class
base in sorted order. -/
def assignIds (dc : String) (start : Nat) (l : List CDoc) : List CDoc :=
  l.enum.map fun p => { p.2 with id := upperStr dc ++ toString (start + p.1) }

/-- The `cdoc-rev` assignments of one document (source lines 1017-1018):
revision `rev` to the `rev`-th member of the number-sorted group,
counting from 1. -/
def docRevs (d : CDoc) : List (String × Nat) :=
  d.nums.enum.map fun p => (p.2, p.1 + 1)

/-- `generate_autonum_docs`: the identifier-bearing document list in
sorted order, plus all `cdoc-rev` assignments it writes into the
mapping. -/
def generate_autonum_docs (st : DState) (dc : String) (start : Nat)
    (cutoff : String) (ex inc : Finset String) :
    List CDoc × List (String × Nat) :=
  let docs := assignIds dc start (sortDocs (autonumDocs0 st dc cutoff ex inc))
  (docs, docs.foldl (fun acc d => acc ++ docRevs d) [])

/-- `C_EXTRA_INCLUDE`. -/
def C_EXTRA_INCLUDE : Finset String :=
  {"2658", "2948", "2995", "3051", "3064", "3160", "3025", "3058"}

/-- `C_EXTRA_EXCLUDE`. -/
def C_EXTRA_EXCLUDE : Finset String := {"3191", "3216"}

/-- `CADM_EXTRA_INCLUDE`. -/
def CADM_EXTRA_INCLUDE : Finset String := {"3118", "3002", "2947"}

/-- `CADM_EXTRA_EXCLUDE`. -/
def CADM_EXTRA_EXCLUDE : Finset String := (∅ : Finset String)

/-- The C-class pipeline exactly as invoked by `action_convert` (source
lines 1629-1630): classify and group, then assign `C` identifiers from
4000 with the 2023-10-01 cutoff. -/
def cPipeline (inp : List (String × InRec)) (fuel : Nat) :
    Except GroupErr (Option (List CDoc × List (String × Nat))) :=
  (classify_docs inp fuel).map
    (Option.map fun st =>
      generate_autonum_docs st "c" 4000 "2023-10-01" C_EXTRA_EXCLUDE C_EXTRA_INCLUDE)

/-! ### Meeting documents (`generate_meeting_docs`, source lines
1434-1524) -/

/-- `OVERRIDE_DATE`: date (meeting) overrides for meeting documents. -/
def OVERRIDE_DATE : List (String × String) := [
  ("3735", "202510.2"), ("3730", "202510.2"), ("3729", "202510.1"),
  ("3726", "202510.1"), ("3649", "202409"), ("3501", "202508"),
  ("3399", "202502"), ("3373", "202406"), ("3372", "202409"),
  ("3281", "202406"), ("3270", "202409"), ("3172", "202401"),
  ("3168", "202308.2"), ("3162", "202308.2"), ("3161", "202308.1"),
  ("3159", "202308.1"), ("3100", "202301.3"), ("3099", "202301.3"),
  ("3085", "202301.2"), ("3084", "202301.2"), ("3083", "202301.1"),
  ("3069", "202301.1"), ("2971", "202203.2"), ("2950", "202203.2"),
  ("2949", "202203.1"), ("2943", "202203.1"), ("2925", "202201"),
  ("2921", "202111"), ("2691", "202011"), ("2690", "202103"),
  ("2648", "202101"), ("2628", "202011"), ("2605", "202010"),
  ("2519", "202003"), ("2516", "202003"), ("2509", "201910"),
  ("2463", "202003"), ("2451", "201910"), ("2439", "202201"),
  ("2377", "201904"), ("2376", "201904"), ("2375", "201810"),
  ("2308", "201904"), ("2239", "201804"), ("2238", "201710"),
  ("1984", "201604"), ("1983", "201604"), ("1900", "201410"),
  ("1840", "201406"), ("1828", "201404"), ("1820", "201404"),
  ("1819", "201309"), ("1799", "201410"), ("1795", "201403"),
  ("1764", "201309"), ("1763", "201304"), ("1737", "201309"),
  ("1708", "201309"), ("1686", "201309"), ("1681", "201302"),
  ("1640", "201304"), ("1604", "201202"), ("1603", "201110"),
  ("1597", "201202"), ("1589", "201202"), ("1588", "201110"),
  ("1587", "201103"), ("1557", "201011"), ("1542", "201005"),
  ("1449", "201004"), ("1475", "200910"), ("1375", "200809"),
  ("1231", "200704"), ("1211", "200704"), ("1198", "200610"),
  ("1195", "200603"), ("1168", "200603"), ("1166", "200509"),
  ("1153", "200610"), ("1145", "200509"), ("1140", "200504"),
  ("1136", "200603"), ("1116", "200504"), ("1115", "200410"),
  ("1083", "200410"), ("1081", "200403"), ("1064", "200403"),
  ("1039", "200403"), ("1022", "200403"), ("1004", "200303"),
  ("999", "200303"), ("989", "200303"), ("988", "200303"),
  ("981", "200210"), ("960", "200110"), ("928", "200010"),
  ("914", "200004"), ("862", "199806"), ("840", "199806"),
  ("855", "199902"), ("812", "199802"), ("718", "199706"),
  ("630", "199702"), ("597", "199610"), ("352", "199406"),
  ("201", "199112.1"), ("200", "199112.2"), ("176", "199112.1"),
  ("174", "199112.1"), ("092", "198904.1"), ("086", "198904.2"),
  ("077", "198904.1"), ("018", "198706.2"), ("013", "198711"),
  ("012", "198711"), ("010", "198706.1"), ("002", "198706.1")]

/-- `MEETING_DOC_GROUPS`: explicit multi-version general meeting
documents. -/
def MEETING_DOC_GROUPS : List (List String) :=
  [["1745", "1788"],
   ["1799", "1811", "1831", "1861"],
   ["2047", "2057"],
   ["2247", "2284"]]

/-- The month abbreviation/full-name pairs of `generate_meeting_docs`. -/
def MONTH_NAMES : List (String × String) :=
  [("Jan", "January"), ("Feb", "February"), ("Mar", "March"),
   ("Apr", "April"), ("May", "May"), ("Jun", "June"),
   ("Jul", "July"), ("Aug", "August"), ("Sep", "September"),
   ("Oct", "October"), ("Nov", "November"), ("Dec", "December")]

/-- The delimiter class of `re.split("[-\\\\ .,/'()]", ...)`. -/
def isDelim (c : Char) : Bool :=
  c = '-' || c = '\\' || c = ' ' || c = '.' || c = ',' || c = '/'
    || c = Char.ofNat 39 || c = '(' || c = ')'

/-- `re.split` on the delimiter class, keeping empty fields as Python
does. -/
def splitDelimsAux : List Char → List Char → List String
  | [], cur => [String.mk cur.reverse]
  | c :: rest, cur =>
      if isDelim c then String.mk cur.reverse :: splitDelimsAux rest []
      else splitDelimsAux rest (c :: cur)

/-- `title_words` of a main title. -/
def titleWords (s : String) : List String := splitDelimsAux s.data []

/-- `'%02d' % n`. -/
def fmt2 (n : Nat) : String := if n < 10 then "0" ++ toString n else toString n

/-- The year scan: four-digit years 1986-2025 first (ascending, first
hit wins), then two-digit years 86-99 mapped into the 1900s. -/
def findYear (ws : List String) : Option String :=
  match (List.range' 1986 40).find? fun y => ws.contains (toString y) with
  | some y => some (toString y)
  | none =>
      match (List.range' 86 14).find? fun y => ws.contains (toString y) with
      | some y => some (toString (1900 + y))
      | none => none

/-- The month scan over abbreviation or full name, first hit wins. -/
def findMonth (ws : List String) : Option String :=
  (MONTH_NAMES.enum.find? fun p => ws.contains p.2.1 || ws.contains p.2.2).map
    fun p => fmt2 (p.1 + 1)

/-- The `YYYY-MM` / `YYYY/MM` substring fallback when a year was found
but no month name. -/
def monthFromYearSub (y mt : String) : Option String :=
  ((List.range' 1 12).find? fun m =>
      hasSub (y ++ "-" ++ fmt2 m) mt || hasSub (y ++ "/" ++ fmt2 m) mt).map fmt2

/-- The record-date fallback when a month was found but no year: take
the date's year if the date's month matches, or (for minutes classes)
is one past the parsed month. -/
def yearFromDate (dc month date : String) : Option String :=
  let dyear := takeStr 4 date
  let dmon := takeStr 2 (dropStr 5 date)
  if dmon = month ∨ ((dc = "cmm" ∨ dc = "cfptcm") ∧ natOf dmon = natOf month + 1) then
    some dyear
  else none

/-- The fatal `could not parse date: N...` of `generate_meeting_docs`. -/
inductive MeetErr where
  | noDate : String → MeetErr
deriving DecidableEq

/-- The meeting key `'%s%s' % (year, month)` of one record of a meeting
class, or the fatal error (source lines 1444-1481). -/
def meetingKey (dc k : String) (e : ND) : Except MeetErr String :=
  let ws := titleWords e.maintitle
  let yearA := findYear ws
  let monthA := findMonth ws
  let monthB := match yearA, monthA with
    | some y, none => monthFromYearSub y e.maintitle
    | _, _ => monthA
  let yearB := match yearA, monthB with
    | none, some m => yearFromDate dc m e.date
    | _, _ => yearA
  let (yearC, monthC) := match OVERRIDE_DATE.lookup k with
    | some v => (some (takeStr 4 v), some (dropStr 4 v))
    | none => (yearB, monthB)
  match yearC, monthC with
  | some y, some m => .ok (y ++ m)
  | _, _ => .error (.noDate k)

/-- Insert a record number under its meeting key, preserving
first-creation order of keys (`defaultdict` insertion order). -/
def addMeeting (acc : List (String × Finset String)) (key n : String) :
    List (String × Finset String) :=
  if (acc.lookup key).isSome then
    acc.map fun p => if p.1 = key then (p.1, insert n p.2) else p
  else acc ++ [(key, {n})]

/-- `nnums_by_meeting`: partition the records of the class by meeting
key, failing on the first record with no derivable meeting. -/
def collectMeetings (acc : List (String × Finset String)) (dc : String) :
    DState → Except MeetErr (List (String × Finset String))
  | [] => .ok acc
  | p :: rest =>
      if p.2.cls = dc then
        match meetingKey dc p.1 p.2 with
        | .error e => .error e
        | .ok key => collectMeetings (addMeeting acc key p.1) dc rest
      else collectMeetings acc dc rest

/-- A meeting logical document. -/
structure MDoc where
  id : String
  author : String
  title : String
  nums : List String
deriving DecidableEq

/-- `data[n]['author']` with an unreachable default (see `dateOf`). -/
def authorOf (st : DState) (n : String) : String :=
  match st.lookup n with
  | some e => e.author
  | none => ""

/-- `data[n]['title']` with an unreachable default (see `dateOf`). -/
def titleOf (st : DState) (n : String) : String :=
  match st.lookup n with
  | some e => e.title
  | none => ""

/-- Last element of a list (groups and meeting sets are nonempty). -/
def lastD : List String → String
  | [] => ""
  | [x] => x
  | _ :: y :: ys => lastD (y :: ys)

/-- The numbers listed after the first element of each
`MEETING_DOC_GROUPS` entry (`later_vers`). -/
def laterVers : Finset String :=
  (MEETING_DOC_GROUPS.foldl (fun acc g => acc ++ g.drop 1) []).toFinset

/-- `group_contents`: each explicit group keyed by its first element. -/
def groupContents : List (String × List String) :=
  MEETING_DOC_GROUPS.filterMap fun g =>
    match g with
    | [] => none
    | h :: _ => some (h, g)

/-- `cdoc-rev` assignments of a member list: revision `i+1` to the
`i`-th member. -/
def enumRevs (nums : List String) : List (String × Nat) :=
  nums.enum.map fun q => (q.2, q.1 + 1)

/-- `generate_meeting_docs`.  For the general-meeting class `cm` each
record is its own document (unless listed in `MEETING_DOC_GROUPS`);
for every other meeting class all records sharing a meeting key are
revisions, in ascending number order, of one document whose author and
title come from the maximal-numbered record. -/
def generate_meeting_docs (st : DState) (dc : String) :
    Except MeetErr (List MDoc × List (String × Nat)) :=
  match collectMeetings [] dc st with
  | .error e => .error e
  | .ok ms =>
      let docs :=
        if dc = "cm" then
          ms.foldl (fun acc p =>
            let nums := (numSorted p.2).filter fun n => !(decide (n ∈ laterVers))
            acc ++ nums.enum.map fun q =>
              let docid := upperStr dc ++ p.1 ++ "x" ++ toString (q.1 + 1)
              match groupContents.lookup q.2 with
              | some grp =>
                  { id := docid, author := authorOf st (lastD grp),
                    title := titleOf st (lastD grp), nums := grp }
              | none =>
                  { id := docid, author := authorOf st q.2,
                    title := titleOf st q.2, nums := [q.2] }) []
        else
          ms.map fun p =>
            let nums := numSorted p.2
            { id := upperStr dc ++ p.1, author := authorOf st (lastD nums),
              title := titleOf st (lastD nums), nums := nums }
      .ok (docs, docs.foldl (fun acc d => acc ++ enumRevs d.nums) [])

/-! ### C8: the date grammars -/

/-- The three supported date-segment grammars, stated structurally:
full ISO `20[0-2][0-9]/[01][0-9]/[0-3][0-9]`, `DD-Mon-YYYY` for
2001-2005 with a real month abbreviation, and `DD-Mon-YY`/`DD Mon YY`
with first year digit `0`, `8` or `9`; each followed by at least one
whitespace character and the rest of the line. -/
def dateGrammar (cs : List Char) : Prop :=
  (∃ y2 y3 m0 m1 d0 d1 rest,
      cs = '2' :: '0' :: y2 :: y3 :: '/' :: m0 :: m1 :: '/' :: d0 :: d1 :: rest ∧
      '0' ≤ y2 ∧ y2 ≤ '2' ∧ isDig y3 = true ∧ (m0 = '0' ∨ m0 = '1') ∧
      isDig m1 = true ∧ '0' ≤ d0 ∧ d0 ≤ '3' ∧ isDig d1 = true ∧
      (dropWsRun rest).isSome = true)
  ∨ (∃ d0 d1 c0 c1 c2 y3 rest,
      cs = d0 :: d1 :: '-' :: c0 :: c1 :: c2 :: '-' :: '2' :: '0' :: '0' :: y3 :: rest ∧
      '0' ≤ d0 ∧ d0 ≤ '3' ∧ isDig d1 = true ∧ '1' ≤ y3 ∧ y3 ≤ '5' ∧
      (MONTHS.lookup (String.mk [c0, c1, c2])).isSome = true ∧
      (dropWsRun rest).isSome = true)
  ∨ (∃ d0 d1 s1 c0 c1 c2 s2 y0 y1 rest,
      cs = d0 :: d1 :: s1 :: c0 :: c1 :: c2 :: s2 :: y0 :: y1 :: rest ∧
      '0' ≤ d0 ∧ d0 ≤ '3' ∧ isDig d1 = true ∧ (s1 = '-' ∨ s1 = ' ') ∧
      (s2 = '-' ∨ s2 = ' ') ∧ (y0 = '0' ∨ y0 = '8' ∨ y0 = '9') ∧ isDig y1 = true ∧
      (MONTHS.lookup (String.mk [c0, c1, c2])).isSome = true ∧
      (dropWsRun rest).isSome = true)

/-- A line the extractor can process without a date error: either the
skip marker or a date-parseable body. -/
def lineOk (l : RawLine) : Prop :=
  l.rest = "Not assigned." ∨ ∃ out, parseDateLine l.rest.data = .ok out

/-- The numbers of the lines that are not skipped. -/
def activeNnums (lines : List RawLine) : List String :=
  (lines.filter fun l => l.rest != "Not assigned.").map RawLine.nnum

/-- The keys of the shared mapping, in order. -/
def keysOf (st : DState) : List String := st.map Prod.fst

/-- The grouping invariant: keys are unique, every record's group
contains the record, any two records one of which appears in the
other's group have equal groups, and groups only mention keys. -/
structure GInv (st : DState) : Prop where
  nodup : (keysOf st).Nodup
  self : ∀ p ∈ st, p.1 ∈ p.2.group
  eqcl : ∀ p ∈ st, ∀ q ∈ st, q.1 ∈ p.2.group → q.2.group = p.2.group
  sub : ∀ p ∈ st, ∀ n ∈ p.2.group, n ∈ keysOf st

/-- The concrete two-record input refuting the unrestricted C2: record
500 is a minutes record (class `cmm`, not title-groupable) whose
auxiliary title says it updates N600. -/
def c2exInp : List (String × InRec) :=
  [("500", { date := "2024-01-01", author := "A", title := "minutes things",
             maintitle := "minutes things", auxtitle := some "updates N600" }),
   ("600", { date := "2024-01-02", author := "B", title := "zzz alpha",
             maintitle := "zzz alpha", auxtitle := none })]

/-- Whether a grouping run completed at a fixpoint. -/
def completedG (r : Except GroupErr (Option DState)) : Bool :=
  match r with
  | .ok (some _) => true
  | _ => false

/-- The final group of a record after a grouping run. -/
def groupAt (r : Except GroupErr (Option DState)) (k : String) : Finset String :=
  match r with
  | .ok (some st) =>
      match st.lookup k with
      | some e => e.group
      | none => ∅
  | _ => ∅

/-- Sort-key comparison lifted to documents. -/
def docLE (d1 d2 : CDoc) : Prop := keyLE d1.sortkey d2.sortkey = true

/-- A concrete two-record state with one group, for witnesses. -/
def c5exSt : DState :=
  [("5", { date := "2023-10-02", author := "A", title := "zzz alpha",
           maintitle := "zzz alpha", auxtitle := none, cls := "c",
           group := {"5", "10"} }),
   ("10", { date := "2023-10-01", author := "B", title := "zzz alpha",
            maintitle := "zzz alpha", auxtitle := none, cls := "c",
            group := {"5", "10"} })]

/-- The document generated from `c5exSt`. -/
def c5exDoc : CDoc :=
  { sortkey := ("2023-10-01", 10), title := "zzz alpha", author := "B",
    nums := ["5", "10"], id := "C4000" }

/-- Modelled from the spec words, not the source: the claimed group
sort key, the pair of the earliest date in the group and the
numerically smallest member of the group. -/
def claimC3Key (st : DState) (g : Finset String) : String × Nat :=
  (match (numSorted g).map (dateOf st) with
   | [] => ""
   | d :: ds => ds.foldl (fun m x => if strLT x m then x else m) d,
   natOf ((numSorted g).headD "0"))

/-- A three-record state with two groups whose source sort keys invert
the spec-claimed `(earliest date, smallest member)` order: the group
`{5, 10}` has the earlier `(earliest date, smallest member)` pair but
its lexicographically minimal member pair is `("2023-10-01", 10)`,
after `{7}`'s `("2023-10-01", 7)`. -/
def c3exSt : DState :=
  [("5", { date := "2023-10-02", author := "A", title := "zzz alpha",
           maintitle := "zzz alpha", auxtitle := none, cls := "c",
           group := {"5", "10"} }),
   ("10", { date := "2023-10-01", author := "B", title := "zzz alpha",
            maintitle := "zzz alpha", auxtitle := none, cls := "c",
            group := {"5", "10"} }),
   ("7", { date := "2023-10-01", author := "D", title := "zzz beta",
           maintitle := "zzz beta", auxtitle := none, cls := "c",
           group := {"7"} })]

/-- The single-record state refuting C6's unconditional at-cutoff
inclusion: record 3191 is dated exactly at the C cutoff but sits in
`C_EXTRA_EXCLUDE`. -/
def c6exSt : DState :=
  [("3191", { date := "2023-10-01", author := "A", title := "zzz gamma",
              maintitle := "zzz gamma", auxtitle := none, cls := "c",
              group := {"3191"} })]

/-- The group-`{5, 10}` record of `c5exSt`, the C6 witness
representative. -/
def c6wNd : ND :=
  { date := "2023-10-01", author := "B", title := "zzz alpha",
    maintitle := "zzz alpha", auxtitle := none, cls := "c",
    group := {"5", "10"} }

/-- The two-record `cma` state refuting C4: record 501 carries the
maximal number but record 500 the latest date. -/
def c4exSt : DState :=
  [("500", { date := "1999-05-01", author := "AuthorEarlyNum",
             title := "Agenda for June 1999 meeting",
             maintitle := "Agenda for June 1999 meeting",
             auxtitle := none, cls := "cma", group := {"500"} }),
   ("501", { date := "1999-04-01", author := "AuthorLateNum",
             title := "Agenda for June 1999 meeting",
             maintitle := "Agenda for June 1999 meeting",
             auxtitle := none, cls := "cma", group := {"501"} })]

/-- The meeting document generated from `c4exSt`. -/
def c4wDoc : MDoc :=
  { id := "CMA199906", author := "AuthorLateNum",
    title := "Agenda for June 1999 meeting", nums := ["500", "501"] }

/-- Identifier/member extraction from a pipeline run. -/
def pipeDocs (r : Except GroupErr (Option (List CDoc × List (String × Nat)))) :
    Option (List (String × List String)) :=
  match r with
  | .ok (some q) => some (q.1.map fun d => (d.id, d.nums))
  | _ => none

/-- The base input of the C1 counterexample: record 10 predates the C
cutoff (its singleton group gets no identifier), record 11 qualifies. -/
def c1exS1 : List (String × InRec) :=
  [("10", { date := "2023-09-01", author := "A", title := "zzz alpha",
            maintitle := "zzz alpha", auxtitle := none }),
   ("11", { date := "2023-10-02", author := "B", title := "zzz beta",
            maintitle := "zzz beta", auxtitle := none })]

/-- `c1exS1` plus one appended record, later-dated than everything in
`c1exS1`, sharing record 10's title. -/
def c1exS2 : List (String × InRec) :=
  c1exS1 ++ [("12", { date := "2023-10-03", author := "C", title := "zzz alpha",
                      maintitle := "zzz alpha", auxtitle := none })]

/-- The appended fresh-group record of the C1 witness. -/
def c1wNd : ND :=
  { date := "2023-12-01", author := "N", title := "zzz new",
    maintitle := "zzz new", auxtitle := none, cls := "c", group := {"20"} }

/-!
### Theorems

Everything below this point is a proof about the definitions above.
(The ordering facts interleaved among the definitions earlier are the
well-definedness prerequisites of `numSorted`: the fold of the
insertion sort over a group's underlying multiset requires the
insertion to be left-commutative.)
-/

theorem parseDateISO_sound {cs : List Char} {res : String × List Char}
    (h : parseDateISO cs = some res) : dateGrammar cs := by
  unfold parseDateISO at h
  split at h
  case h_2 => exact absurd h (by simp)
  case h_1 a b y2 y3 s1 m0 m1 s2 d0 d1 rest =>
    split at h
    case isFalse => exact absurd h (by simp)
    case isTrue hcond =>
      simp only [Bool.and_eq_true, Bool.or_eq_true, decide_eq_true_eq] at hcond
      obtain ⟨⟨⟨⟨⟨⟨⟨⟨⟨ha, hb⟩, hy2⟩, hy3⟩, hs1⟩, hm0⟩, hm1⟩, hs2⟩, hd0⟩, hd1⟩ := hcond
      subst ha hb hs1 hs2
      cases hr : dropWsRun rest with
      | none => rw [hr] at h; exact absurd h (by simp)
      | some r =>
        exact Or.inl ⟨y2, y3, m0, m1, d0, d1, rest, rfl, hy2.1, hy2.2, hy3, hm0,
          hm1, hd0.1, hd0.2, hd1, by rw [hr]; rfl⟩

theorem parseDateDMY4_sound {cs : List Char} {out : String × List Char}
    (h : parseDateDMY4 cs = some (.ok out)) : dateGrammar cs := by
  unfold parseDateDMY4 at h
  split at h
  case h_2 => exact absurd h (by simp)
  case h_1 d0 d1 s1 c0 c1 c2 s2 a b c y3 rest =>
    split at h
    case isFalse => exact absurd h (by simp)
    case isTrue hcond =>
      simp only [Bool.and_eq_true, Bool.or_eq_true, decide_eq_true_eq] at hcond
      obtain ⟨⟨⟨⟨⟨⟨⟨⟨⟨⟨hd0, hd1⟩, hs1⟩, hc0⟩, hc1⟩, hc2⟩, hs2⟩, ha⟩, hb⟩, hc⟩, hy3⟩ := hcond
      subst hs1 hs2 ha hb hc
      cases hr : dropWsRun rest with
      | none => rw [hr] at h; exact absurd h (by simp)
      | some r =>
        rw [hr] at h
        cases hm : MONTHS.lookup (String.mk [c0, c1, c2]) with
        | none => rw [hm] at h; exact absurd h (by simp)
        | some mm =>
          exact Or.inr (Or.inl ⟨d0, d1, c0, c1, c2, y3, rest, rfl, hd0.1, hd0.2,
            hd1, hy3.1, hy3.2, by rw [hm]; rfl, by rw [hr]; rfl⟩)

theorem parseDateDMY2_sound {cs : List Char} {out : String × List Char}
    (h : parseDateDMY2 cs = some (.ok out)) : dateGrammar cs := by
  unfold parseDateDMY2 at h
  split at h
  case h_2 => exact absurd h (by simp)
  case h_1 d0 d1 s1 c0 c1 c2 s2 y0 y1 rest =>
    split at h
    case isFalse => exact absurd h (by simp)
    case isTrue hcond =>
      simp only [Bool.and_eq_true, Bool.or_eq_true, decide_eq_true_eq] at hcond
      obtain ⟨⟨⟨⟨⟨⟨⟨⟨hd0, hd1⟩, hs1⟩, hc0⟩, hc1⟩, hc2⟩, hs2⟩, hy0⟩, hy1⟩ := hcond
      cases hr : dropWsRun rest with
      | none => rw [hr] at h; exact absurd h (by simp)
      | some r =>
        rw [hr] at h
        cases hm : MONTHS.lookup (String.mk [c0, c1, c2]) with
        | none => rw [hm] at h; exact absurd h (by simp)
        | some mm =>
          exact Or.inr (Or.inr ⟨d0, d1, s1, c0, c1, c2, s2, y0, y1, rest, rfl,
            hd0.1, hd0.2, hd1, hs1, hs2, or_assoc.mp hy0, hy1, by rw [hm]; rfl, by rw [hr]; rfl⟩)

theorem parseDateLine_sound {cs : List Char} {out : String × List Char}
    (h : parseDateLine cs = .ok out) : dateGrammar cs := by
  unfold parseDateLine at h
  cases h1 : parseDateISO cs with
  | some res => exact parseDateISO_sound h1
  | none =>
    rw [h1] at h
    cases h2 : parseDateDMY4 cs with
    | some res =>
      rw [h2] at h
      change res = Except.ok out at h
      exact parseDateDMY4_sound (h ▸ h2)
    | none =>
      rw [h2] at h
      cases h3 : parseDateDMY2 cs with
      | some res =>
        rw [h3] at h
        change res = Except.ok out at h
        exact parseDateDMY2_sound (h ▸ h3)
      | none =>
        rw [h3] at h
        change Except.error ExtractErr.badDate = Except.ok out at h
        exact absurd h (by simp)

theorem parseDateLine_iso_ok (y2 y3 m0 m1 d0 d1 : Char) (rest : List Char)
    (h1 : '0' ≤ y2) (h2 : y2 ≤ '2') (h3 : isDig y3 = true)
    (h4 : m0 = '0' ∨ m0 = '1') (h5 : isDig m1 = true)
    (h6 : '0' ≤ d0) (h7 : d0 ≤ '3') (h8 : isDig d1 = true) :
    parseDateLine ('2' :: '0' :: y2 :: y3 :: '/' :: m0 :: m1 :: '/' :: d0 :: d1 :: ' ' :: rest)
      = .ok (String.mk ['2', '0', y2, y3, '-', m0, m1, '-', d0, d1], rest.dropWhile isWs) := by
  rcases h4 with h4 | h4 <;> subst h4 <;>
    simp [parseDateLine, parseDateISO, dropWsRun, isWs, h1, h2, h3, h5, h6, h7, h8]

theorem parseDateLine_dmy4_ok (y3 d0 d1 c0 c1 c2 : Char) (mm : String) (rest : List Char)
    (h1 : '0' ≤ d0) (h2 : d0 ≤ '3') (h3 : isDig d1 = true)
    (h4 : '1' ≤ y3) (h5 : y3 ≤ '5')
    (hc0 : 'A' ≤ c0 ∧ c0 ≤ 'Z') (hc1 : 'a' ≤ c1 ∧ c1 ≤ 'z') (hc2 : 'a' ≤ c2 ∧ c2 ≤ 'z')
    (hm : MONTHS.lookup (String.mk [c0, c1, c2]) = some mm) :
    parseDateLine (d0 :: d1 :: '-' :: c0 :: c1 :: c2 :: '-' :: '2' :: '0' :: '0' :: y3 :: ' ' :: rest)
      = .ok (String.mk (['2', '0', '0', y3, '-'] ++ mm.data ++ ['-', d0, d1]),
             rest.dropWhile isWs) := by
  have hne : ¬(c1 = '/') := by
    intro he; subst he; exact absurd hc1.1 (by decide)
  have hiso : parseDateISO
      (d0 :: d1 :: '-' :: c0 :: c1 :: c2 :: '-' :: '2' :: '0' :: '0' :: y3 :: ' ' :: rest) = none := by
    simp [parseDateISO, hne]
  unfold parseDateLine
  rw [hiso]
  simp [parseDateDMY4, dropWsRun, isWs, h1, h2, h3, h4, h5, hc0.1, hc0.2,
    hc1.1, hc1.2, hc2.1, hc2.2, hm]

theorem parseDateLine_dmy2_ok (y0 y1 d0 d1 s1 s2 c0 c1 c2 : Char) (mm : String) (rest : List Char)
    (h1 : '0' ≤ d0) (h2 : d0 ≤ '3') (h3 : isDig d1 = true)
    (hs1 : s1 = '-' ∨ s1 = ' ') (hs2 : s2 = '-' ∨ s2 = ' ')
    (hy0 : y0 = '0' ∨ y0 = '8' ∨ y0 = '9') (hy1 : isDig y1 = true)
    (hc0 : 'A' ≤ c0 ∧ c0 ≤ 'Z') (hc1 : 'a' ≤ c1 ∧ c1 ≤ 'z') (hc2 : 'a' ≤ c2 ∧ c2 ≤ 'z')
    (hm : MONTHS.lookup (String.mk [c0, c1, c2]) = some mm) :
    parseDateLine (d0 :: d1 :: s1 :: c0 :: c1 :: c2 :: s2 :: y0 :: y1 :: ' ' :: rest)
      = .ok (String.mk ((if y0 = '0' then ['2', '0'] else ['1', '9']) ++ [y0, y1, '-']
               ++ mm.data ++ ['-', d0, d1]), rest.dropWhile isWs) := by
  have hne : ¬(c1 = '/') := by
    intro he; subst he; exact absurd hc1.1 (by decide)
  have hy0ne : ¬(y0 = '2') := by
    rcases hy0 with h | h | h <;> subst h <;> decide
  have hiso : parseDateISO
      (d0 :: d1 :: s1 :: c0 :: c1 :: c2 :: s2 :: y0 :: y1 :: ' ' :: rest) = none := by
    simp [parseDateISO, hne]
  have hdmy4 : parseDateDMY4
      (d0 :: d1 :: s1 :: c0 :: c1 :: c2 :: s2 :: y0 :: y1 :: ' ' :: rest) = none := by
    rcases rest with _ | ⟨r, rs⟩ <;> simp [parseDateDMY4, hy0ne]
  unfold parseDateLine
  rw [hiso, hdmy4]
  rcases hs1 with h | h <;> subst h <;> rcases hs2 with h | h <;> subst h <;>
    rcases hy0 with h | h | h <;> subst h <;>
    simp [parseDateDMY2, dropWsRun, isWs, h1, h2, h3, hy1, hc0.1, hc0.2,
      hc1.1, hc1.2, hc2.1, hc2.2, hm]

/-- C8: record extraction normalizes each supported raw date format
(full ISO `YYYY/MM/DD`, `DD-Mon-YYYY` for 2001-2005, and the
two-digit-year variants `DD-Mon-YY` / `DD Mon YY` with the fixed
0->20xx / 8,9->19xx split) to the same canonical `YYYY-MM-DD` string,
and any date segment matching none of these grammars produces a fatal
parse error. -/
theorem C8_date_formats :
    (∀ (y3 d0 d1 c0 c1 c2 mm0 mm1 : Char) (rest : List Char),
      '1' ≤ y3 → y3 ≤ '5' → '0' ≤ d0 → d0 ≤ '3' → isDig d1 = true →
      ('A' ≤ c0 ∧ c0 ≤ 'Z') → ('a' ≤ c1 ∧ c1 ≤ 'z') → ('a' ≤ c2 ∧ c2 ≤ 'z') →
      MONTHS.lookup (String.mk [c0, c1, c2]) = some (String.mk [mm0, mm1]) →
      (mm0 = '0' ∨ mm0 = '1') → isDig mm1 = true →
      (parseDateLine ('2' :: '0' :: '0' :: y3 :: '/' :: mm0 :: mm1 :: '/' :: d0 :: d1 :: ' ' :: rest)
          = .ok (String.mk ['2', '0', '0', y3, '-', mm0, mm1, '-', d0, d1], rest.dropWhile isWs)
       ∧ parseDateLine (d0 :: d1 :: '-' :: c0 :: c1 :: c2 :: '-' :: '2' :: '0' :: '0' :: y3 :: ' ' :: rest)
          = .ok (String.mk ['2', '0', '0', y3, '-', mm0, mm1, '-', d0, d1], rest.dropWhile isWs)
       ∧ parseDateLine (d0 :: d1 :: '-' :: c0 :: c1 :: c2 :: '-' :: '0' :: y3 :: ' ' :: rest)
          = .ok (String.mk ['2', '0', '0', y3, '-', mm0, mm1, '-', d0, d1], rest.dropWhile isWs)
       ∧ parseDateLine (d0 :: d1 :: ' ' :: c0 :: c1 :: c2 :: ' ' :: '0' :: y3 :: ' ' :: rest)
          = .ok (String.mk ['2', '0', '0', y3, '-', mm0, mm1, '-', d0, d1], rest.dropWhile isWs)))
    ∧ (∀ (y0 y1 d0 d1 c0 c1 c2 : Char) (mm : String) (rest : List Char),
      (y0 = '8' ∨ y0 = '9') → isDig y1 = true → '0' ≤ d0 → d0 ≤ '3' → isDig d1 = true →
      ('A' ≤ c0 ∧ c0 ≤ 'Z') → ('a' ≤ c1 ∧ c1 ≤ 'z') → ('a' ≤ c2 ∧ c2 ≤ 'z') →
      MONTHS.lookup (String.mk [c0, c1, c2]) = some mm →
      parseDateLine (d0 :: d1 :: '-' :: c0 :: c1 :: c2 :: '-' :: y0 :: y1 :: ' ' :: rest)
        = .ok (String.mk (['1', '9', y0, y1, '-'] ++ mm.data ++ ['-', d0, d1]),
               rest.dropWhile isWs))
    ∧ (∀ cs : List Char, ¬ dateGrammar cs → ∃ e, parseDateLine cs = .error e) := by
  refine ⟨?_, ?_, ?_⟩
  · intro y3 d0 d1 c0 c1 c2 mm0 mm1 rest hy1 hy5 hd0 hd3 hd1 hc0 hc1 hc2 hm hmm0 hmm1
    have hy3dig : isDig y3 = true := by
      simp only [isDig, Bool.and_eq_true, decide_eq_true_eq]
      exact ⟨le_trans (by decide) hy1, le_trans hy5 (by decide)⟩
    refine ⟨?_, ?_, ?_, ?_⟩
    · exact parseDateLine_iso_ok '0' y3 mm0 mm1 d0 d1 rest (by decide) (by decide)
        hy3dig hmm0 hmm1 hd0 hd3 hd1
    · exact parseDateLine_dmy4_ok y3 d0 d1 c0 c1 c2 (String.mk [mm0, mm1]) rest
        hd0 hd3 hd1 hy1 hy5 hc0 hc1 hc2 hm
    · have := parseDateLine_dmy2_ok '0' y3 d0 d1 '-' '-' c0 c1 c2 (String.mk [mm0, mm1]) rest
        hd0 hd3 hd1 (Or.inl rfl) (Or.inl rfl) (Or.inl rfl) hy3dig hc0 hc1 hc2 hm
      simpa using this
    · have := parseDateLine_dmy2_ok '0' y3 d0 d1 ' ' ' ' c0 c1 c2 (String.mk [mm0, mm1]) rest
        hd0 hd3 hd1 (Or.inr rfl) (Or.inr rfl) (Or.inl rfl) hy3dig hc0 hc1 hc2 hm
      simpa using this
  · intro y0 y1 d0 d1 c0 c1 c2 mm rest hy0 hy1 hd0 hd3 hd1 hc0 hc1 hc2 hm
    have hy0' : y0 = '0' ∨ y0 = '8' ∨ y0 = '9' := Or.inr hy0
    have := parseDateLine_dmy2_ok y0 y1 d0 d1 '-' '-' c0 c1 c2 mm rest
      hd0 hd3 hd1 (Or.inl rfl) (Or.inl rfl) hy0' hy1 hc0 hc1 hc2 hm
    have hne : ¬(y0 = '0') := by
      rcases hy0 with h | h <;> subst h <;> decide
    rw [if_neg hne] at this
    exact this
  · intro cs hng
    cases h : parseDateLine cs with
    | ok out => exact absurd (parseDateLine_sound h) hng
    | error e => exact ⟨e, rfl⟩

/-- Witness for C8 at the concrete date 2003-05-12 in all four surface
forms, at 1999-05-12 for the 19xx split, and at the empty segment for
the error case. -/
theorem C8_date_formats_witness :
    (parseDateLine "2003/05/12 x".data = .ok ("2003-05-12", ['x'])
     ∧ parseDateLine "12-May-2003 x".data = .ok ("2003-05-12", ['x'])
     ∧ parseDateLine "12-May-03 x".data = .ok ("2003-05-12", ['x'])
     ∧ parseDateLine "12 May 03 x".data = .ok ("2003-05-12", ['x']))
    ∧ parseDateLine "12-May-99 x".data = .ok ("1999-05-12", ['x'])
    ∧ (∃ e, parseDateLine ([] : List Char) = .error e) := by
  refine ⟨?_, ?_, ?_⟩
  · have := C8_date_formats.1 '3' '1' '2' 'M' 'a' 'y' '0' '5' ['x']
      (by decide) (by decide) (by decide) (by decide) (by decide)
      (by decide) (by decide) (by decide) (by decide) (by decide) (by decide)
    exact this
  · have := C8_date_formats.2.1 '9' '9' '1' '2' 'M' 'a' 'y' "05" ['x']
      (Or.inr rfl) (by decide) (by decide) (by decide) (by decide)
      (by decide) (by decide) (by decide) (by decide)
    exact this
  · exact C8_date_formats.2.2 [] (by simp [dateGrammar])

theorem lookup_isSome_iff_mem {β : Type} (l : List (String × β)) (a : String) :
    (l.lookup a).isSome = true ↔ a ∈ l.map Prod.fst := by
  induction l with
  | nil => simp
  | cons p rest ih =>
      by_cases h : a = p.1
      · subst h; simp [List.lookup]
      · have hbeq : (a == p.1) = false := by simpa using h
        simp only [List.lookup, List.map_cons, List.mem_cons, hbeq]
        simp [ih, h]

theorem getNdocLoop_dup (lines : List RawLine) :
    ∀ acc : List (String × NRec),
    (∀ l ∈ lines, lineOk l) →
    (acc.map Prod.fst).Nodup →
    ¬ (acc.map Prod.fst ++ activeNnums lines).Nodup →
    ∃ n, getNdocLoop acc lines = .error (.duplicate n) := by
  induction lines with
  | nil =>
      intro acc _ hacc hdup
      exact absurd (by simpa [activeNnums] using hacc) hdup
  | cons l ls ih =>
      intro acc hw hacc hdup
      by_cases hskip : l.rest = "Not assigned."
      · have hact : activeNnums (l :: ls) = activeNnums ls := by
          simp [activeNnums, List.filter, hskip]
        rw [hact] at hdup
        have : getNdocLoop acc (l :: ls) = getNdocLoop acc ls := by
          simp [getNdocLoop, hskip]
        rw [this]
        exact ih acc (fun x hx => hw x (List.mem_cons_of_mem l hx)) hacc hdup
      · obtain hok | ⟨out, hout⟩ := hw l (List.mem_cons_self l ls)
        · exact absurd hok hskip
        have hbne : (l.rest != "Not assigned.") = true := by simpa using hskip
        have hact : activeNnums (l :: ls) = l.nnum :: activeNnums ls := by
          simp [activeNnums, List.filter, hbne]
        rw [hact] at hdup
        by_cases hmem : (acc.lookup l.nnum).isSome = true
        · refine ⟨l.nnum, ?_⟩
          simp [getNdocLoop, hskip, hout, hmem]
        · have hloop : getNdocLoop acc (l :: ls)
              = getNdocLoop (acc ++ [(l.nnum, ⟨l.link, out.1, String.mk out.2⟩)]) ls := by
            cases out with
            | mk d b => simp [getNdocLoop, hskip, hout, hmem]
          rw [hloop]
          refine ih _ (fun x hx => hw x (List.mem_cons_of_mem l hx)) ?_ ?_
          · have hnot : l.nnum ∉ acc.map Prod.fst := by
              rw [← lookup_isSome_iff_mem]
              simpa using hmem
            simpa [List.nodup_append, hnot] using hacc
          · intro hno
            apply hdup
            have : (acc ++ [(l.nnum, (⟨l.link, out.1, String.mk out.2⟩ : NRec))]).map Prod.fst
                ++ activeNnums ls
                = acc.map Prod.fst ++ l.nnum :: activeNnums ls := by
              simp
            rw [this] at hno
            exact hno

/-- C9: two lines carrying the same record number make record
extraction fail with the fatal duplicate error, producing no record
mapping (on a log whose individual lines are otherwise processable). -/
theorem C9_duplicate_error (lines : List RawLine)
    (hw : ∀ l ∈ lines, lineOk l)
    (hdup : ¬ (activeNnums lines).Nodup) :
    ∃ n, get_ndoc_data lines = .error (.duplicate n) := by
  unfold get_ndoc_data
  exact getNdocLoop_dup lines [] hw (by simp) (by simpa using hdup)

/-- Witness for C9: two lines numbered 7 with valid dates. -/
theorem C9_duplicate_error_witness :
    ∃ n, get_ndoc_data
      [{ nnum := "7", link := none, rest := "2003/05/12 A, T." },
       { nnum := "7", link := none, rest := "2003/05/13 A, U." }]
      = .error (.duplicate n) := by
  apply C9_duplicate_error
  · intro l hl
    simp only [List.mem_cons, List.not_mem_nil, or_false] at hl
    rcases hl with rfl | rfl
    · right; exact ⟨_, rfl⟩
    · right; exact ⟨_, rfl⟩
  · decide

theorem heuristicClass_eq_firstMatch (mt : String) :
    heuristicClass mt = firstMatchClass CLASS_PREDS (lowerStr mt) := rfl

theorem firstMatchClass_default (L : List ((String → Bool) × String)) (t : String)
    (h : ∀ pc ∈ L, pc.1 t = false) : firstMatchClass L t = "c" := by
  induction L with
  | nil => rfl
  | cons pc rest ih =>
      have h1 := h pc (List.mem_cons_self pc rest)
      simp only [firstMatchClass, h1]
      exact ih fun x hx => h x (List.mem_cons_of_mem pc hx)

theorem firstMatchClass_append_true (L1 L2 : List ((String → Bool) × String))
    (p : String → Bool) (c t : String) (hp : p t = true) :
    firstMatchClass (L1 ++ (p, c) :: L2) t ∈ L1.map Prod.snd ++ [c] := by
  induction L1 with
  | nil => simp [firstMatchClass, hp]
  | cons q L1 ih =>
      simp only [List.cons_append, firstMatchClass]
      by_cases hq : q.1 t = true
      · rcases q with ⟨qp, qc⟩
        simp only at hq
        simp [hq]
      · have hq' : q.1 t = false := by simpa using hq
        rcases q with ⟨qp, qc⟩
        simp only at hq'
        simp only [hq', if_false]
        simp only [List.map_cons, List.cons_append, List.mem_cons]
        exact Or.inr ih

theorem lookup_mem {β : Type} (l : List (String × β)) (a : String) (c : β)
    (h : l.lookup a = some c) : (a, c) ∈ l := by
  induction l with
  | nil => simp [List.lookup] at h
  | cons p rest ih =>
      by_cases he : a = p.1
      · subst he
        have hbeq : (p.1 == p.1) = true := by simp
        simp only [List.lookup, hbeq] at h
        cases h
        rcases p with ⟨a, b⟩
        exact List.mem_cons_self _ _
      · have hbeq : (a == p.1) = false := by simpa using he
        simp only [List.lookup, hbeq] at h
        exact List.mem_cons_of_mem p (ih h)

theorem firstMatchClass_mem (L : List ((String → Bool) × String)) (t : String) :
    firstMatchClass L t ∈ "c" :: L.map Prod.snd := by
  induction L with
  | nil => simp [firstMatchClass]
  | cons q L ih =>
      rcases q with ⟨p, c⟩
      simp only [firstMatchClass]
      by_cases hp : p t = true
      · simp [hp]
      · have hp' : p t = false := by simpa using hp
        simp only [hp', if_false, List.map_cons, List.mem_cons]
        rcases List.mem_cons.mp ih with h | h
        · exact Or.inl h
        · exact Or.inr (Or.inr h)

set_option maxRecDepth 4000 in
theorem override_values_in_taxonomy :
    ∀ p ∈ OVERRIDE_CLASS, p.2 ∈ TAXONOMY := by decide

/-- C7: classification is total with values in the closed taxonomy; the
override-table value wins whenever the record number has an entry;
otherwise the class is the first matching predicate of the fixed
ordered list (so a title whose lowered form contains both
"fp teleconference" and "agenda" can never fall through to the generic
agenda class), defaulting to the plain-document class `"c"`. -/
theorem C7_classification :
    (∀ nnum mt c, OVERRIDE_CLASS.lookup nnum = some c → classifyClass nnum mt = c)
    ∧ (∀ nnum mt, OVERRIDE_CLASS.lookup nnum = none →
        classifyClass nnum mt = firstMatchClass CLASS_PREDS (lowerStr mt))
    ∧ (∀ mt, (∀ pc ∈ CLASS_PREDS, pc.1 (lowerStr mt) = false) →
        ∀ nnum, OVERRIDE_CLASS.lookup nnum = none → classifyClass nnum mt = "c")
    ∧ (∀ mt, hasSub "fp teleconference" (lowerStr mt) = true →
        hasSub "agenda" (lowerStr mt) = true → heuristicClass mt ≠ "cma")
    ∧ (∀ nnum mt, classifyClass nnum mt ∈ TAXONOMY) := by
  refine ⟨?_, ?_, ?_, ?_, ?_⟩
  · intro nnum mt c h
    simp [classifyClass, h]
  · intro nnum mt h
    simp [classifyClass, h, heuristicClass_eq_firstMatch]
  · intro mt hall nnum h
    simp [classifyClass, h, heuristicClass_eq_firstMatch]
    exact firstMatchClass_default _ _ hall
  · intro mt hfp hag
    rw [heuristicClass_eq_firstMatch]
    have hsplit : CLASS_PREDS = CLASS_PREDS.take 22
        ++ ((fun l => hasSub "fp teleconference" l && hasSub "agenda" l), "cfptca")
          :: CLASS_PREDS.drop 23 := by rfl
    rw [hsplit]
    have hmem := firstMatchClass_append_true (CLASS_PREDS.take 22) (CLASS_PREDS.drop 23)
      (fun l => hasSub "fp teleconference" l && hasSub "agenda" l) "cfptca" (lowerStr mt)
      (by dsimp only; rw [hfp, hag]; rfl)
    intro heq
    rw [heq] at hmem
    have hlist : (CLASS_PREDS.take 22).map Prod.snd ++ ["cfptca"]
        = ["cpub", "cpub", "cpub", "cpub", "cpub", "cpub", "cpub", "cpub", "cpub",
           "cpub", "cpub", "cpub", "cpub", "cpub", "cpub", "cpub", "cpub", "cpub",
           "cpub", "cpub", "cpub", "cpub", "cfptca"] := rfl
    rw [hlist] at hmem
    revert hmem
    decide
  · intro nnum mt
    cases h : OVERRIDE_CLASS.lookup nnum with
    | some c =>
        have hc : classifyClass nnum mt = c := by simp [classifyClass, h]
        rw [hc]
        exact override_values_in_taxonomy _ (lookup_mem _ _ _ h)
    | none =>
        have hc : classifyClass nnum mt = firstMatchClass CLASS_PREDS (lowerStr mt) := by
          simp [classifyClass, h, heuristicClass_eq_firstMatch]
        rw [hc]
        have hm := firstMatchClass_mem CLASS_PREDS (lowerStr mt)
        have hsub : ∀ x ∈ ("c" :: CLASS_PREDS.map Prod.snd), x ∈ TAXONOMY := by decide
        exact hsub _ hm

/-- Witness for C7: an overridden record, the fp-teleconference-agenda
precedence, and the default class on an unmatched title. -/
theorem C7_classification_witness :
    classifyClass "2131" "Defect report summary" = "c"
    ∧ classifyClass "9999" "Agenda for the FP teleconference" = "cfptca"
    ∧ classifyClass "9999" "zzz plain paper" = "c" := by
  refine ⟨C7_classification.1 "2131" _ "c" (by decide), ?_, ?_⟩
  · have h := C7_classification.2.1 "9999" "Agenda for the FP teleconference" (by decide)
    rw [h]; decide
  · have h := C7_classification.2.2.1 "zzz plain paper" (by decide) "9999" (by decide)
    exact h

theorem lookup_map {α β : Type} (f : (String × α) → (String × β))
    (hf : ∀ p, (f p).1 = p.1) (l : List (String × α)) (k : String) :
    (l.map f).lookup k = (l.lookup k).map fun v => (f (k, v)).2 := by
  induction l with
  | nil => simp [List.lookup]
  | cons p rest ih =>
      simp only [List.map_cons, List.lookup]
      rw [hf p]
      by_cases h : k = p.1
      · have hbeq : (k == p.1) = true := by simp [h]
        have he : (k, p.2) = p := by rw [h]
        simp only [hbeq, Option.map_some]
        exact congrArg (fun q => some (f q).2) he.symm
      · have hbeq : (k == p.1) = false := by simpa using h
        simp only [hbeq, ih]

theorem map_fst_map {α β : Type} (f : (String × α) → (String × β))
    (hf : ∀ p, (f p).1 = p.1) (l : List (String × α)) :
    (l.map f).map Prod.fst = l.map Prod.fst := by
  rw [List.map_map]
  exact List.map_congr_left fun p _ => hf p

theorem lookup_eq_none_iff {β : Type} (l : List (String × β)) (a : String) :
    l.lookup a = none ↔ a ∉ l.map Prod.fst := by
  rw [← lookup_isSome_iff_mem]
  cases l.lookup a <;> simp

theorem mem_lookup {β : Type} {l : List (String × β)} {p : String × β}
    (hnd : (l.map Prod.fst).Nodup) (hp : p ∈ l) : l.lookup p.1 = some p.2 := by
  induction l with
  | nil => cases hp
  | cons q rest ih =>
      rcases List.mem_cons.mp hp with rfl | hp'
      · have hbeq : (p.1 == p.1) = true := by simp
        simp [List.lookup, hbeq]
      · have hne : p.1 ≠ q.1 := by
          intro he
          have : q.1 ∈ rest.map Prod.fst := he ▸ List.mem_map_of_mem Prod.fst hp'
          exact (List.nodup_cons.mp hnd).1 this
        have hbeq : (p.1 == q.1) = false := by simpa using hne
        simp only [List.lookup, hbeq]
        exact ih (List.nodup_cons.mp hnd).2 hp'

theorem groupUpd_fst (n : String) (g : Finset String) (p : String × ND) :
    (groupUpd n g p).1 = p.1 := by
  unfold groupUpd; split_ifs <;> rfl

theorem groupUpd_cls (n : String) (g : Finset String) (p : String × ND) :
    (groupUpd n g p).2.cls = p.2.cls := by
  unfold groupUpd; split_ifs <;> rfl

theorem groupUpd_aux (n : String) (g : Finset String) (p : String × ND) :
    (groupUpd n g p).2.auxtitle = p.2.auxtitle := by
  unfold groupUpd; split_ifs <;> rfl

theorem groupUpd_date (n : String) (g : Finset String) (p : String × ND) :
    (groupUpd n g p).2.date = p.2.date := by
  unfold groupUpd; split_ifs <;> rfl

theorem groupUpd_author (n : String) (g : Finset String) (p : String × ND) :
    (groupUpd n g p).2.author = p.2.author := by
  unfold groupUpd; split_ifs <;> rfl

theorem groupUpd_maintitle (n : String) (g : Finset String) (p : String × ND) :
    (groupUpd n g p).2.maintitle = p.2.maintitle := by
  unfold groupUpd; split_ifs <;> rfl

theorem groupUpd_title (n : String) (g : Finset String) (p : String × ND) :
    (groupUpd n g p).2.title = p.2.title := by
  unfold groupUpd; split_ifs <;> rfl

theorem groupUpd_group (n : String) (g : Finset String) (p : String × ND) :
    (groupUpd n g p).2.group
      = if p.1 = n then g else if p.1 ∈ g then p.2.group ∪ g else p.2.group := by
  unfold groupUpd
  split_ifs with h1 h2 h3 <;> first | rfl | (simp [h3])

theorem updOp_cases {st : DState} {k : String} {st' : DState} {ch : Bool}
    (h : updOp st k = .ok (st', ch)) :
    (st' = st ∧ ch = false) ∨
    (ch = true ∧ ∃ e aux onum oe, st.lookup k = some e ∧ isGroupable e.cls = true ∧
      e.auxtitle = some aux ∧ findUpdates aux.data = some onum ∧ onum ∉ e.group ∧
      st.lookup onum = some oe ∧ st' = st.map (groupUpd k (e.group ∪ oe.group))) := by
  unfold updOp at h
  split at h
  · exact Or.inl (by cases h; exact ⟨rfl, rfl⟩)
  · rename_i e he
    split at h
    · rename_i hgr
      split at h
      · exact Or.inl (by cases h; exact ⟨rfl, rfl⟩)
      · rename_i aux haux
        split at h
        · exact Or.inl (by cases h; exact ⟨rfl, rfl⟩)
        · rename_i onum hupd
          split at h
          · exact Or.inl (by cases h; exact ⟨rfl, rfl⟩)
          · rename_i hnotin
            split at h
            · exact absurd h (by simp)
            · rename_i oe hoe
              cases h
              exact Or.inr ⟨rfl, e, aux, onum, oe, he, hgr, haux, hupd, hnotin, hoe, rfl⟩
    · exact Or.inl (by cases h; exact ⟨rfl, rfl⟩)

theorem updOp_noChange {st : DState} {k : String} {st' : DState}
    (h : updOp st k = .ok (st', false)) : st' = st := by
  rcases updOp_cases h with ⟨h1, _⟩ | ⟨h1, _⟩
  · exact h1
  · cases h1

theorem keysOf_map_groupUpd (st : DState) (k : String) (g : Finset String) :
    keysOf (st.map (groupUpd k g)) = keysOf st :=
  map_fst_map _ (groupUpd_fst k g) st

theorem mem_of_key {st : DState} {n : String} (h : n ∈ keysOf st) :
    ∃ e, (n, e) ∈ st := by
  rcases List.mem_map.mp h with ⟨p, hp, he⟩
  exact ⟨p.2, by rwa [← he, Prod.mk.eta]⟩

theorem map_groupUpd_inv {st : DState} (hinv : GInv st) {k : String} {e oe : ND}
    (he : st.lookup k = some e) (hoe : st.lookup onum = some oe)
    : GInv (st.map (groupUpd k (e.group ∪ oe.group))) := by
  set g := e.group ∪ oe.group with hg
  have hkmem : (k, e) ∈ st := lookup_mem st k e he
  have homem : (onum, oe) ∈ st := lookup_mem st onum oe hoe
  have hke : k ∈ e.group := hinv.self (k, e) hkmem
  -- groups of records inside g are e.group or oe.group, hence subsets of g
  have hsubg : ∀ p ∈ st, p.1 ∈ g → p.2.group ⊆ g := by
    intro p hp hpg
    rcases Finset.mem_union.mp hpg with hh | hh
    · rw [hinv.eqcl (k, e) hkmem p hp hh]
      exact Finset.subset_union_left
    · rw [hinv.eqcl (onum, oe) homem p hp hh]
      exact Finset.subset_union_right
  -- records outside g have groups disjoint from g
  have hdisj : ∀ p ∈ st, p.1 ∉ g → ∀ x ∈ p.2.group, x ∉ g := by
    intro p hp hpg x hx hxg
    rcases mem_of_key (hinv.sub p hp x hx) with ⟨ex, hex⟩
    have h1 : ex.group = p.2.group := hinv.eqcl p hp (x, ex) hex hx
    rcases Finset.mem_union.mp hxg with hh | hh
    · have h2 : ex.group = e.group := hinv.eqcl (k, e) hkmem (x, ex) hex hh
      apply hpg
      have : p.1 ∈ p.2.group := hinv.self p hp
      rw [← h1, h2] at this
      exact Finset.mem_union.mpr (Or.inl this)
    · have h2 : ex.group = oe.group := hinv.eqcl (onum, oe) homem (x, ex) hex hh
      apply hpg
      have : p.1 ∈ p.2.group := hinv.self p hp
      rw [← h1, h2] at this
      exact Finset.mem_union.mpr (Or.inr this)
  -- the new group of any record whose key lies in g is exactly g
  have hin : ∀ p ∈ st, p.1 ∈ g → (groupUpd k g p).2.group = g := by
    intro p hp hpg
    rw [groupUpd_group]
    by_cases h1 : p.1 = k
    · simp [h1]
    · rw [if_neg h1, if_pos hpg]
      exact Finset.union_eq_right.mpr (hsubg p hp hpg)
  have hout : ∀ p : String × ND, p.1 ∉ g → (groupUpd k g p).2.group = p.2.group := by
    intro p hpg
    rw [groupUpd_group]
    have h1 : p.1 ≠ k := by
      intro h1
      exact hpg (h1 ▸ Finset.mem_union.mpr (Or.inl hke))
    rw [if_neg h1, if_neg hpg]
  refine ⟨?_, ?_, ?_, ?_⟩
  · rw [keysOf_map_groupUpd]; exact hinv.nodup
  · intro p' hp'
    rcases List.mem_map.mp hp' with ⟨p, hp, rfl⟩
    rw [groupUpd_fst]
    by_cases hpg : p.1 ∈ g
    · rw [hin p hp hpg]; exact hpg
    · rw [hout p hpg]; exact hinv.self p hp
  · intro p' hp' q' hq' hmem
    rcases List.mem_map.mp hp' with ⟨p, hp, rfl⟩
    rcases List.mem_map.mp hq' with ⟨q, hq, rfl⟩
    rw [groupUpd_fst] at hmem
    by_cases hpg : p.1 ∈ g
    · rw [hin p hp hpg] at hmem ⊢
      exact hin q hq hmem
    · rw [hout p hpg] at hmem ⊢
      have hqg : q.1 ∉ g := hdisj p hp hpg q.1 hmem
      rw [hout q hqg]
      exact hinv.eqcl p hp q hq hmem
  · intro p' hp' n hn
    rcases List.mem_map.mp hp' with ⟨p, hp, rfl⟩
    rw [keysOf_map_groupUpd]
    have hgsub : ∀ x ∈ g, x ∈ keysOf st := by
      intro x hx
      rcases Finset.mem_union.mp hx with hh | hh
      · exact hinv.sub (k, e) hkmem x hh
      · exact hinv.sub (onum, oe) homem x hh
    by_cases hpg : p.1 ∈ g
    · rw [hin p hp hpg] at hn
      exact hgsub n hn
    · rw [hout p hpg] at hn
      exact hinv.sub p hp n hn

theorem updOp_inv {st : DState} {k : String} {st' : DState} {ch : Bool}
    (hinv : GInv st) (h : updOp st k = .ok (st', ch)) : GInv st' := by
  rcases updOp_cases h with ⟨rfl, _⟩ | ⟨_, e, aux, onum, oe, he, _, _, _, _, hoe, rfl⟩
  · exact hinv
  · exact map_groupUpd_inv hinv he hoe

theorem updPass_inv {keys : List String} :
    ∀ {st st' : DState} {ch : Bool}, GInv st → updPass st keys = .ok (st', ch) → GInv st' := by
  induction keys with
  | nil =>
      intro st st' ch hinv h
      simp only [updPass] at h
      cases h
      exact hinv
  | cons k ks ih =>
      intro st st' ch hinv h
      simp only [updPass, bind, Except.bind] at h
      cases h1 : updOp st k with
      | error e => rw [h1] at h; cases h
      | ok r =>
          rw [h1] at h
          rcases r with ⟨st1, c1⟩
          cases h2 : updPass st1 ks with
          | error e => simp only [h2] at h; cases h
          | ok r2 =>
              rcases r2 with ⟨st2, c2⟩
              simp only [h2] at h
              cases h
              exact ih (updOp_inv hinv h1) h2

theorem updPass_noChange {keys : List String} :
    ∀ {st st' : DState}, updPass st keys = .ok (st', false) → st' = st := by
  induction keys with
  | nil =>
      intro st st' h
      simp only [updPass] at h
      cases h
      rfl
  | cons k ks ih =>
      intro st st' h
      simp only [updPass, bind, Except.bind] at h
      cases h1 : updOp st k with
      | error e => rw [h1] at h; cases h
      | ok r =>
          rw [h1] at h
          rcases r with ⟨st1, c1⟩
          cases h2 : updPass st1 ks with
          | error e => simp only [h2] at h; cases h
          | ok r2 =>
              rcases r2 with ⟨st2, c2⟩
              simp only [h2] at h
              simp only [Except.ok.injEq, Prod.mk.injEq] at h
              obtain ⟨rfl, hor⟩ := h
              have hc1 : c1 = false := by cases c1 <;> simp_all
              have hc2 : c2 = false := by cases c2 <;> simp_all
              subst hc1 hc2
              rw [ih h2, updOp_noChange h1]

theorem updLoop_inv {keys : List String} :
    ∀ {fuel : Nat} {st st' : DState}, GInv st →
      updLoop keys fuel st = .ok (some st') → GInv st' := by
  intro fuel
  induction fuel with
  | zero =>
      intro st st' _ h
      simp only [updLoop] at h
      cases h
  | succ n ih =>
      intro st st' hinv h
      simp only [updLoop, bind, Except.bind] at h
      cases h1 : updPass st keys with
      | error e => rw [h1] at h; cases h
      | ok r =>
          rw [h1] at h
          rcases r with ⟨st1, ch⟩
          cases ch with
          | true => exact ih (updPass_inv hinv h1) h
          | false =>
              simp only at h
              cases h
              exact updPass_inv hinv h1

theorem updLoop_fix {keys : List String} :
    ∀ {fuel : Nat} {st st' : DState},
      updLoop keys fuel st = .ok (some st') → updPass st' keys = .ok (st', false) := by
  intro fuel
  induction fuel with
  | zero =>
      intro st st' h
      simp only [updLoop] at h
      cases h
  | succ n ih =>
      intro st st' h
      simp only [updLoop, bind, Except.bind] at h
      cases h1 : updPass st keys with
      | error e => rw [h1] at h; cases h
      | ok r =>
          rw [h1] at h
          rcases r with ⟨st1, ch⟩
          cases ch with
          | true => exact ih h
          | false =>
              simp only at h
              cases h
              have := updPass_noChange h1
              subst this
              exact h1

theorem updOp_guard {st : DState} {k : String} {e : ND} {aux onum : String}
    (h : updOp st k = .ok (st, false))
    (he : st.lookup k = some e) (hgr : isGroupable e.cls = true)
    (haux : e.auxtitle = some aux) (hupd : findUpdates aux.data = some onum) :
    onum ∈ e.group := by
  by_cases hmem : onum ∈ e.group
  · exact hmem
  · exfalso
    unfold updOp at h
    simp only [he, hgr, if_true, haux, hupd, if_neg hmem] at h
    cases h2 : st.lookup onum with
    | none => rw [h2] at h; cases h
    | some oe => rw [h2] at h; simp at h

theorem updPass_guard {keys : List String} :
    ∀ {st : DState}, updPass st keys = .ok (st, false) →
      ∀ k ∈ keys, ∀ e, st.lookup k = some e → isGroupable e.cls = true →
      ∀ aux, e.auxtitle = some aux → ∀ onum, findUpdates aux.data = some onum →
      onum ∈ e.group := by
  induction keys with
  | nil => intro st _ k hk; cases hk
  | cons k0 ks ih =>
      intro st h k hk e he hgr aux haux onum hupd
      simp only [updPass, bind, Except.bind] at h
      cases h1 : updOp st k0 with
      | error e' => rw [h1] at h; cases h
      | ok r =>
          rw [h1] at h
          rcases r with ⟨st1, c1⟩
          cases h2 : updPass st1 ks with
          | error e' => simp only [h2] at h; cases h
          | ok r2 =>
              rcases r2 with ⟨st2, c2⟩
              simp only [h2] at h
              simp only [Except.ok.injEq, Prod.mk.injEq] at h
              obtain ⟨hst, hor⟩ := h
              have hc1 : c1 = false := by cases c1 <;> simp_all
              have hc2 : c2 = false := by cases c2 <;> simp_all
              subst hc1 hc2
              have hst1 : st1 = st := updOp_noChange h1
              subst hst1
              subst hst
              rcases List.mem_cons.mp hk with rfl | hk'
              · exact updOp_guard h1 he hgr haux hupd
              · exact ih h2 k hk' e he hgr aux haux onum hupd

theorem entry_uniq {β : Type} {l : List (String × β)}
    (hnd : (l.map Prod.fst).Nodup) {a : String} {b c : β}
    (h1 : (a, b) ∈ l) (h2 : (a, c) ∈ l) : b = c := by
  have e1 := mem_lookup hnd h1
  have e2 := mem_lookup hnd h2
  simp only at e1 e2
  rw [e1] at e2
  cases e2
  rfl

theorem updOp_keys {st : DState} {k : String} {st' : DState} {ch : Bool}
    (h : updOp st k = .ok (st', ch)) : keysOf st' = keysOf st := by
  rcases updOp_cases h with ⟨rfl, _⟩ | ⟨_, e, aux, onum, oe, _, _, _, _, _, _, rfl⟩
  · rfl
  · exact keysOf_map_groupUpd st k _

theorem updPass_keys {keys : List String} :
    ∀ {st st' : DState} {ch : Bool},
      updPass st keys = .ok (st', ch) → keysOf st' = keysOf st := by
  induction keys with
  | nil =>
      intro st st' ch h
      simp only [updPass] at h
      cases h
      rfl
  | cons k ks ih =>
      intro st st' ch h
      simp only [updPass, bind, Except.bind] at h
      cases h1 : updOp st k with
      | error e => rw [h1] at h; cases h
      | ok r =>
          rw [h1] at h
          rcases r with ⟨st1, c1⟩
          cases h2 : updPass st1 ks with
          | error e => simp only [h2] at h; cases h
          | ok r2 =>
              rcases r2 with ⟨st2, c2⟩
              simp only [h2] at h
              cases h
              rw [ih h2, updOp_keys h1]

theorem updLoop_keys {keys : List String} :
    ∀ {fuel : Nat} {st st' : DState},
      updLoop keys fuel st = .ok (some st') → keysOf st' = keysOf st := by
  intro fuel
  induction fuel with
  | zero =>
      intro st st' h
      simp only [updLoop] at h
      cases h
  | succ n ih =>
      intro st st' h
      simp only [updLoop, bind, Except.bind] at h
      cases h1 : updPass st keys with
      | error e => rw [h1] at h; cases h
      | ok r =>
          rw [h1] at h
          rcases r with ⟨st1, ch⟩
          cases ch with
          | true => rw [ih h, updPass_keys h1]
          | false =>
              simp only at h
              cases h
              exact updPass_keys h1

theorem phase1_keys (inp : List (String × InRec)) :
    keysOf (classifyPhase1 inp) = inp.map Prod.fst := by
  unfold keysOf classifyPhase1
  exact map_fst_map
    (fun p => (p.1,
      ({ date := p.2.date, author := p.2.author, title := p.2.title,
         maintitle := p.2.maintitle, auxtitle := p.2.auxtitle,
         cls := classifyClass p.1 p.2.maintitle, group := {p.1} } : ND)))
    (fun _ => rfl) inp

theorem phase1_group (inp : List (String × InRec)) :
    ∀ p ∈ classifyPhase1 inp, p.2.group = {p.1} := by
  intro p hp
  rcases List.mem_map.mp hp with ⟨q, _, rfl⟩
  rfl

theorem phase2_f_fst (st : DState) : ∀ p : String × ND,
    ((if isGroupable p.2.cls then
        (p.1, { p.2 with group := p.2.group ∪ byTitleSet st (groupTitle p.1 p.2.maintitle) })
      else p) : String × ND).1 = p.1 := by
  intro p
  split <;> rfl

theorem phase2_keys (st : DState) : keysOf (classifyPhase2 st) = keysOf st := by
  unfold keysOf classifyPhase2
  exact map_fst_map _ (phase2_f_fst st) st

theorem mem_byTitleSet {st : DState} {key a : String} :
    a ∈ byTitleSet st key ↔
      ∃ e, (a, e) ∈ st ∧ isGroupable e.cls = true ∧ groupTitle a e.maintitle = key := by
  unfold byTitleSet
  rw [List.mem_toFinset, List.mem_map]
  constructor
  · rintro ⟨p, hp, rfl⟩
    rw [List.mem_filter] at hp
    obtain ⟨hmem, hcond⟩ := hp
    simp only [Bool.and_eq_true, beq_iff_eq] at hcond
    exact ⟨p.2, by rwa [Prod.mk.eta], hcond.1, hcond.2⟩
  · rintro ⟨e, hmem, hgr, hkey⟩
    refine ⟨(a, e), ?_, rfl⟩
    rw [List.mem_filter]
    exact ⟨hmem, by simp [hgr, hkey]⟩

theorem phase_inv (inp : List (String × InRec)) (hnd : (inp.map Prod.fst).Nodup) :
    GInv (classifyPhase2 (classifyPhase1 inp)) := by
  set st0 := classifyPhase1 inp with hst0
  have hnd0 : (keysOf st0).Nodup := by rw [hst0, phase1_keys]; exact hnd
  have hgrp0 : ∀ p ∈ st0, p.2.group = {p.1} := phase1_group inp
  -- entry-level description of phase 2
  have hdesc : ∀ p : String × ND, p ∈ st0 →
      (if isGroupable p.2.cls then
          (p.1, { p.2 with group := p.2.group ∪ byTitleSet st0 (groupTitle p.1 p.2.maintitle) })
        else p).2.group
        = (if isGroupable p.2.cls = true then
            {p.1} ∪ byTitleSet st0 (groupTitle p.1 p.2.maintitle) else {p.1}) := by
    intro p hp
    by_cases hgr : isGroupable p.2.cls = true
    · rw [if_pos hgr, if_pos hgr]
      simp only
      rw [hgrp0 p hp]
    · rw [if_neg hgr, if_neg hgr]
      exact hgrp0 p hp
  have hself : ∀ p ∈ st0, p.1 ∈ byTitleSet st0 (groupTitle p.1 p.2.maintitle)
      ∨ ¬ (isGroupable p.2.cls = true) := by
    intro p hp
    by_cases hgr : isGroupable p.2.cls = true
    · left
      exact mem_byTitleSet.mpr ⟨p.2, by rwa [Prod.mk.eta], hgr, rfl⟩
    · exact Or.inr hgr
  constructor
  · rw [phase2_keys]; exact hnd0
  · intro p' hp'
    rcases List.mem_map.mp hp' with ⟨p, hp, rfl⟩
    rw [show (if isGroupable p.2.cls then
        (p.1, { p.2 with group := p.2.group ∪ byTitleSet st0 (groupTitle p.1 p.2.maintitle) })
      else p).1 = p.1 from phase2_f_fst st0 p]
    rw [hdesc p hp]
    by_cases hgr : isGroupable p.2.cls = true
    · rw [if_pos hgr]; exact Finset.mem_union_left _ (Finset.mem_singleton_self p.1)
    · rw [if_neg hgr]; exact Finset.mem_singleton_self p.1
  · intro p' hp' q' hq' hmem
    rcases List.mem_map.mp hp' with ⟨p, hp, rfl⟩
    rcases List.mem_map.mp hq' with ⟨q, hq, rfl⟩
    rw [show (if isGroupable q.2.cls then
        (q.1, { q.2 with group := q.2.group ∪ byTitleSet st0 (groupTitle q.1 q.2.maintitle) })
      else q).1 = q.1 from phase2_f_fst st0 q] at hmem
    rw [hdesc p hp] at hmem
    rw [hdesc p hp, hdesc q hq]
    by_cases hgr : isGroupable p.2.cls = true
    · rw [if_pos hgr] at hmem ⊢
      rcases Finset.mem_union.mp hmem with hq1 | hq1
      · have : q.1 = p.1 := Finset.mem_singleton.mp hq1
        have huq : q.2 = p.2 := by
          apply entry_uniq hnd0 (a := p.1)
          · rw [← this, Prod.mk.eta]; exact hq
          · rw [Prod.mk.eta]; exact hp
        rw [this, huq, if_pos hgr]
      · rcases mem_byTitleSet.mp hq1 with ⟨e, hemem, hegr, hekey⟩
        have huq : e = q.2 := entry_uniq hnd0 hemem (by rw [Prod.mk.eta]; exact hq)
        rw [huq] at hegr hekey
        rw [if_pos hegr, hekey]
        -- both sides equal the shared title set
        have h1 : ({q.1} : Finset String) ∪ byTitleSet st0 (groupTitle p.1 p.2.maintitle)
            = byTitleSet st0 (groupTitle p.1 p.2.maintitle) :=
          Finset.union_eq_right.mpr (Finset.singleton_subset_iff.mpr hq1)
        have h2 : ({p.1} : Finset String) ∪ byTitleSet st0 (groupTitle p.1 p.2.maintitle)
            = byTitleSet st0 (groupTitle p.1 p.2.maintitle) := by
          rcases hself p hp with hs | hs
          · exact Finset.union_eq_right.mpr (Finset.singleton_subset_iff.mpr hs)
          · exact absurd hgr hs
        rw [h1, h2]
    · rw [if_neg hgr] at hmem ⊢
      have : q.1 = p.1 := Finset.mem_singleton.mp hmem
      have huq : q.2 = p.2 := by
        apply entry_uniq hnd0 (a := p.1)
        · rw [← this, Prod.mk.eta]; exact hq
        · rw [Prod.mk.eta]; exact hp
      rw [this, huq, if_neg hgr]
  · intro p' hp' n hn
    rcases List.mem_map.mp hp' with ⟨p, hp, rfl⟩
    rw [hdesc p hp] at hn
    rw [phase2_keys]
    have hp1 : p.1 ∈ keysOf st0 := by
      rw [show p.1 = (Prod.fst p) from rfl]
      exact List.mem_map_of_mem Prod.fst hp
    by_cases hgr : isGroupable p.2.cls = true
    · rw [if_pos hgr] at hn
      rcases Finset.mem_union.mp hn with hh | hh
      · rw [Finset.mem_singleton.mp hh]; exact hp1
      · rcases mem_byTitleSet.mp hh with ⟨e, hemem, _, _⟩
        rw [show n = (Prod.fst (n, e)) from rfl]
        exact List.mem_map_of_mem Prod.fst hemem
    · rw [if_neg hgr] at hn
      rw [Finset.mem_singleton.mp hn]; exact hp1

/-- C2 (amended): after grouping completes, every record's group
contains the record itself and membership is symmetric; and for every
title-groupable record (class `c`/`cadm`) whose auxiliary title updates
record B, B's whole group is contained in that record's final group.
(The update clause is restricted to groupable records: the fixpoint
loop skips all other classes, which refutes the unrestricted claim.) -/
theorem C2_grouping_closure (inp : List (String × InRec)) (fuel : Nat) (st : DState)
    (hnd : (inp.map Prod.fst).Nodup)
    (h : classify_docs inp fuel = .ok (some st)) :
    (∀ p ∈ st, p.1 ∈ p.2.group)
    ∧ (∀ p ∈ st, ∀ q ∈ st, q.1 ∈ p.2.group → p.1 ∈ q.2.group)
    ∧ (∀ p ∈ st, isGroupable p.2.cls = true →
        ∀ aux, p.2.auxtitle = some aux →
        ∀ b, findUpdates aux.data = some b →
        ∀ q ∈ st, q.1 = b →
        ∀ c ∈ q.2.group, c ∈ p.2.group) := by
  have h' : updLoop (keysOf (classifyPhase2 (classifyPhase1 inp))) fuel
      (classifyPhase2 (classifyPhase1 inp)) = .ok (some st) := h
  have hinv0 := phase_inv inp hnd
  have hinv := updLoop_inv hinv0 h'
  have hfix := updLoop_fix h'
  have hkeys := updLoop_keys h'
  refine ⟨hinv.self, ?_, ?_⟩
  · intro p hp q hq hmem
    rw [hinv.eqcl p hp q hq hmem]
    exact hinv.self p hp
  · intro p hp hgr aux haux b hb q hq hqb c hc
    have hlk : st.lookup p.1 = some p.2 := mem_lookup hinv.nodup hp
    have hpk : p.1 ∈ keysOf (classifyPhase2 (classifyPhase1 inp)) := by
      rw [← hkeys]
      exact List.mem_map_of_mem Prod.fst hp
    have hbmem : b ∈ p.2.group := updPass_guard hfix p.1 hpk p.2 hlk hgr aux haux b hb
    have heq : q.2.group = p.2.group := hinv.eqcl p hp q hq (by rw [hqb]; exact hbmem)
    rw [← heq]
    exact hc

/-- C2 counterexample: record 500 (class `cmm`, hence skipped by the
update loop) says it updates N600, record 600's group contains 600,
yet 600 is not in 500's final group, refuting the claim as stated. -/
theorem C2_counterexample :
    completedG (classify_docs c2exInp 2) = true
    ∧ findUpdates "updates N600".data = some "600"
    ∧ "600" ∈ groupAt (classify_docs c2exInp 2) "600"
    ∧ "600" ∉ groupAt (classify_docs c2exInp 2) "500" := by decide

/-- Witness for C2 on the concrete two-record input. -/
theorem C2_grouping_closure_witness :
    ∃ st, classify_docs c2exInp 2 = .ok (some st)
      ∧ (∀ p ∈ st, p.1 ∈ p.2.group)
      ∧ (∀ p ∈ st, ∀ q ∈ st, q.1 ∈ p.2.group → p.1 ∈ q.2.group) := by
  have hcomp : completedG (classify_docs c2exInp 2) = true := by decide
  cases h : classify_docs c2exInp 2 with
  | error e =>
      rw [h] at hcomp
      exact absurd hcomp (by simp [completedG])
  | ok o =>
      cases o with
      | none =>
          rw [h] at hcomp
          exact absurd hcomp (by simp [completedG])
      | some st =>
          have hc := C2_grouping_closure c2exInp 2 st (by decide) h
          exact ⟨st, rfl, hc.1, hc.2.1⟩

theorem updOp_lookup_fields {st : DState} {k0 : String} {st1 : DState} {ch : Bool}
    (h : updOp st k0 = .ok (st1, ch)) {k : String} {e : ND}
    (he : st.lookup k = some e) :
    ∃ e', st1.lookup k = some e' ∧ e'.cls = e.cls ∧ e'.auxtitle = e.auxtitle := by
  rcases updOp_cases h with ⟨rfl, _⟩ | ⟨_, e0, aux, onum, oe, _, _, _, _, _, _, rfl⟩
  · exact ⟨e, he, rfl, rfl⟩
  · rw [lookup_map _ (groupUpd_fst k0 _) st k, he]
    exact ⟨_, rfl, groupUpd_cls _ _ _, groupUpd_aux _ _ _⟩

theorem updPass_dangling {keys : List String} :
    ∀ {st : DState}, GInv st →
    (∃ k ∈ keys, ∃ e, st.lookup k = some e ∧ isGroupable e.cls = true ∧
      ∃ aux, e.auxtitle = some aux ∧ ∃ onum, findUpdates aux.data = some onum ∧
      onum ∉ keysOf st) →
    ∃ err, updPass st keys = .error err := by
  induction keys with
  | nil =>
      rintro st _ ⟨k, hk, _⟩
      cases hk
  | cons k0 ks ih =>
      rintro st hinv ⟨k, hk, e, he, hgr, aux, haux, onum, hupd, hout⟩
      by_cases hkk : k = k0
      · subst hkk
        have hnotin : onum ∉ e.group := fun hmm =>
          hout (hinv.sub (k, e) (lookup_mem st k e he) onum hmm)
        have hnone : st.lookup onum = none := (lookup_eq_none_iff st onum).mpr hout
        have hop : updOp st k = .error (.keyError onum) := by
          unfold updOp
          simp [he, hgr, haux, hupd, if_neg hnotin, hnone]
        exact ⟨.keyError onum, by simp [updPass, bind, Except.bind, hop]⟩
      · cases h1 : updOp st k0 with
        | error err => exact ⟨err, by simp [updPass, bind, Except.bind, h1]⟩
        | ok r =>
            rcases r with ⟨st1, c1⟩
            obtain ⟨e', he', hcls, haux'⟩ := updOp_lookup_fields h1 he
            have hks : k ∈ ks := by
              rcases List.mem_cons.mp hk with h' | h'
              · exact absurd h' hkk
              · exact h'
            obtain ⟨err, herr⟩ := ih (updOp_inv hinv h1)
              ⟨k, hks, e', he', by rw [hcls]; exact hgr, aux,
               by rw [haux']; exact haux, onum, hupd,
               by rw [updOp_keys h1]; exact hout⟩
            exact ⟨err, by simp [updPass, bind, Except.bind, h1, herr]⟩

theorem phase_lookup (inp : List (String × InRec)) {k : String} {r : InRec}
    (hnd : (inp.map Prod.fst).Nodup) (hk : (k, r) ∈ inp) :
    ∃ e, (classifyPhase2 (classifyPhase1 inp)).lookup k = some e ∧
      e.cls = classifyClass k r.maintitle ∧ e.auxtitle = r.auxtitle := by
  have h1 : inp.lookup k = some r := mem_lookup hnd hk
  have h2 : (classifyPhase1 inp).lookup k
      = some ({ date := r.date, author := r.author, title := r.title,
                maintitle := r.maintitle, auxtitle := r.auxtitle,
                cls := classifyClass k r.maintitle, group := {k} } : ND) := by
    unfold classifyPhase1
    rw [lookup_map
      (fun p => (p.1,
        ({ date := p.2.date, author := p.2.author, title := p.2.title,
           maintitle := p.2.maintitle, auxtitle := p.2.auxtitle,
           cls := classifyClass p.1 p.2.maintitle, group := {p.1} } : ND)))
      (fun _ => rfl) inp k, h1]
    rfl
  unfold classifyPhase2
  rw [lookup_map _ (phase2_f_fst (classifyPhase1 inp)) (classifyPhase1 inp) k, h2]
  simp only [Option.map_some]
  refine ⟨_, rfl, ?_, ?_⟩ <;> (dsimp only; split <;> rfl)

/-- C10: a title-groupable record whose auxiliary title contains an
update reference `updates N<k>` with `k` not a key of the mapping makes
the grouping pass raise the uncaught lookup error: the run cannot
complete. -/
theorem C10_dangling_reference (inp : List (String × InRec)) (fuel : Nat)
    (hnd : (inp.map Prod.fst).Nodup)
    (k : String) (r : InRec) (hk : (k, r) ∈ inp)
    (hgr : isGroupable (classifyClass k r.maintitle) = true)
    (aux : String) (haux : r.auxtitle = some aux)
    (onum : String) (hupd : findUpdates aux.data = some onum)
    (hdang : onum ∉ inp.map Prod.fst) :
    ∃ err, classify_docs inp (fuel + 1) = .error err := by
  obtain ⟨e, he, hcls, haux'⟩ := phase_lookup inp hnd hk
  have hkeys0 : keysOf (classifyPhase2 (classifyPhase1 inp)) = inp.map Prod.fst := by
    rw [phase2_keys, phase1_keys]
  have hkmem : k ∈ keysOf (classifyPhase2 (classifyPhase1 inp)) := by
    rw [hkeys0]
    exact List.mem_map_of_mem Prod.fst hk
  obtain ⟨err, herr⟩ := updPass_dangling (phase_inv inp hnd)
    ⟨k, hkmem, e, he, by rw [hcls]; exact hgr, aux,
     by rw [haux']; exact haux, onum, hupd, by rw [hkeys0]; exact hdang⟩
  refine ⟨err, ?_⟩
  show updLoop (keysOf (classifyPhase2 (classifyPhase1 inp))) (fuel + 1)
      (classifyPhase2 (classifyPhase1 inp)) = .error err
  simp [updLoop, bind, Except.bind, herr]

/-- Witness for C10: a single record updating the nonexistent N42. -/
theorem C10_dangling_reference_witness :
    ∃ err, classify_docs
      [("700", { date := "2024-01-01", author := "A", title := "zzz alpha",
                 maintitle := "zzz alpha", auxtitle := some "updates N42" })] 1
      = .error err := by
  exact C10_dangling_reference _ 0 (by decide) "700"
    { date := "2024-01-01", author := "A", title := "zzz alpha",
      maintitle := "zzz alpha", auxtitle := some "updates N42" }
    (by decide) (by decide) "updates N42" rfl "42" (by decide) (by decide)

theorem mem_insNum {a x : String} {l : List String} :
    x ∈ insNum a l ↔ x = a ∨ x ∈ l := by
  induction l with
  | nil => simp [insNum]
  | cons b bs ih =>
      unfold insNum
      split
      · simp only [List.mem_cons]
      · simp only [List.mem_cons, ih]
        tauto

theorem length_insNum (a : String) (l : List String) :
    (insNum a l).length = l.length + 1 := by
  induction l with
  | nil => rfl
  | cons b bs ih =>
      unfold insNum
      split
      · rfl
      · simp only [List.length_cons, ih]

theorem sorted_insNum {a : String} {l : List String} (hl : List.Sorted numLE l) :
    List.Sorted numLE (insNum a l) := by
  induction l with
  | nil => simp [insNum]
  | cons b bs ih =>
      unfold insNum
      split
      · rename_i hab
        rw [List.sorted_cons]
        refine ⟨?_, hl⟩
        intro c hc
        rcases List.mem_cons.mp hc with rfl | hc'
        · exact hab
        · rw [List.sorted_cons] at hl
          exact numLE_trans hab (hl.1 c hc')
      · rename_i hab
        have hba : numLE b a := (numLE_total a b).resolve_left hab
        rw [List.sorted_cons] at hl ⊢
        refine ⟨?_, ih hl.2⟩
        intro c hc
        rcases mem_insNum.mp hc with rfl | hc'
        · exact hba
        · exact hl.1 c hc'

theorem numSorted_sorted (g : Finset String) : List.Sorted numLE (numSorted g) := by
  unfold numSorted
  refine Multiset.induction_on g.val (by simp) ?_
  intro a s ih
  rw [Multiset.foldr_cons]
  exact sorted_insNum ih

theorem numSorted_length (g : Finset String) : (numSorted g).length = g.card := by
  unfold numSorted
  rw [show g.card = Multiset.card g.val from rfl]
  refine Multiset.induction_on g.val (by simp) ?_
  intro a s ih
  rw [Multiset.foldr_cons, length_insNum, ih, Multiset.card_cons]

theorem mem_numSorted {g : Finset String} {x : String} :
    x ∈ numSorted g ↔ x ∈ g := by
  unfold numSorted
  rw [show (x ∈ g) = (x ∈ g.val) from rfl]
  refine Multiset.induction_on g.val (by simp) ?_
  intro a s ih
  rw [Multiset.foldr_cons, mem_insNum, ih]
  simp

theorem numSorted_toFinset (g : Finset String) : (numSorted g).toFinset = g := by
  ext x
  rw [List.mem_toFinset, mem_numSorted]

theorem numSorted_inj {g g' : Finset String} (h : numSorted g = numSorted g') :
    g = g' := by
  rw [← numSorted_toFinset g, ← numSorted_toFinset g', h]

theorem numLE_natOf {a b : String} (h : numLE a b) : natOf a ≤ natOf b := by
  rcases h with h | ⟨h, _⟩
  · exact le_of_lt h
  · exact le_of_eq h

theorem sorted_last_max {l : List String} (hl : List.Sorted numLE l) :
    ∀ n ∈ l, natOf n ≤ natOf (lastD l) := by
  induction l with
  | nil => intro n hn; cases hn
  | cons b bs ih =>
      intro n hn
      rw [List.sorted_cons] at hl
      cases bs with
      | nil =>
          rcases List.mem_cons.mp hn with rfl | hn'
          · exact le_refl _
          · cases hn'
      | cons c cs =>
          rcases List.mem_cons.mp hn with rfl | hn'
          · show natOf n ≤ natOf (lastD (c :: cs))
            exact le_trans (numLE_natOf (hl.1 c (List.mem_cons_self c cs)))
              (ih hl.2 c (List.mem_cons_self c cs))
          · exact ih hl.2 n hn'

theorem keyLE_iff (a b : String × Nat) :
    keyLE a b = true ↔ (strLT a.1 b.1 = true ∨ (a.1 = b.1 ∧ a.2 ≤ b.2)) := by
  simp [keyLE, Bool.or_eq_true, Bool.and_eq_true, decide_eq_true_eq, beq_iff_eq]

theorem keyLE_total (a b : String × Nat) : keyLE a b = true ∨ keyLE b a = true := by
  rw [keyLE_iff, keyLE_iff]
  rcases strLT_trichotomy a.1 b.1 with h | h | h
  · exact Or.inl (Or.inl h)
  · exact Or.inr (Or.inl h)
  · rcases Nat.le_total a.2 b.2 with h' | h'
    · exact Or.inl (Or.inr ⟨h, h'⟩)
    · exact Or.inr (Or.inr ⟨h.symm, h'⟩)

theorem keyLE_trans {a b c : String × Nat}
    (h1 : keyLE a b = true) (h2 : keyLE b c = true) : keyLE a c = true := by
  rw [keyLE_iff] at h1 h2 ⊢
  rcases h1 with h1 | ⟨h1, h1'⟩ <;> rcases h2 with h2 | ⟨h2, h2'⟩
  · exact Or.inl (strLT_trans h1 h2)
  · exact Or.inl (h2 ▸ h1)
  · exact Or.inl (h1 ▸ h2)
  · exact Or.inr ⟨h1.trans h2, h1'.trans h2'⟩

theorem mem_insDoc {l : List CDoc} {x y : CDoc} :
    y ∈ insDoc l x ↔ y = x ∨ y ∈ l := by
  induction l with
  | nil => simp [insDoc]
  | cons z zs ih =>
      unfold insDoc
      split
      · simp only [List.mem_cons, ih]
        tauto
      · simp only [List.mem_cons]

theorem mem_foldl_insDoc {l : List CDoc} :
    ∀ {acc : List CDoc} {y : CDoc}, y ∈ l.foldl insDoc acc ↔ y ∈ acc ∨ y ∈ l := by
  induction l with
  | nil => simp
  | cons x xs ih =>
      intro acc y
      simp only [List.foldl_cons, ih, mem_insDoc, List.mem_cons]
      tauto

theorem mem_sortDocs {l : List CDoc} {y : CDoc} : y ∈ sortDocs l ↔ y ∈ l := by
  unfold sortDocs
  rw [mem_foldl_insDoc]
  simp

theorem sorted_insDoc {l : List CDoc} {x : CDoc} (hl : List.Sorted docLE l) :
    List.Sorted docLE (insDoc l x) := by
  induction l with
  | nil => simp [insDoc, List.sorted_singleton]
  | cons z zs ih =>
      unfold insDoc
      split
      · rename_i hz
        rw [List.sorted_cons] at hl ⊢
        refine ⟨?_, ih hl.2⟩
        intro b hb
        rcases mem_insDoc.mp hb with rfl | hb'
        · exact hz
        · exact hl.1 b hb'
      · rename_i hz
        rw [List.sorted_cons]
        refine ⟨?_, hl⟩
        intro b hb
        have hxz : docLE x z := by
          rcases keyLE_total x.sortkey z.sortkey with h | h
          · exact h
          · exact absurd h hz
        rcases List.mem_cons.mp hb with rfl | hb'
        · exact hxz
        · rw [List.sorted_cons] at hl
          exact keyLE_trans hxz (hl.1 b hb')

theorem sorted_sortDocs (l : List CDoc) : List.Sorted docLE (sortDocs l) := by
  unfold sortDocs
  suffices h : ∀ acc, List.Sorted docLE acc → List.Sorted docLE (l.foldl insDoc acc) by
    exact h [] List.sorted_nil
  induction l with
  | nil => intro acc h; exact h
  | cons x xs ih =>
      intro acc hacc
      exact ih (insDoc acc x) (sorted_insDoc hacc)

theorem mem_assignIds {dc : String} {start : Nat} {l : List CDoc} {d : CDoc} :
    d ∈ assignIds dc start l ↔
      ∃ i, ∃ d0 : CDoc, l[i]? = some d0
        ∧ d = { d0 with id := upperStr dc ++ toString (start + i) } := by
  unfold assignIds
  rw [List.mem_map]
  constructor
  · rintro ⟨⟨i, d0⟩, hp, rfl⟩
    exact ⟨i, d0, List.mk_mem_enum_iff_getElem?.mp hp, rfl⟩
  · rintro ⟨i, d0, hd0, rfl⟩
    exact ⟨(i, d0), List.mk_mem_enum_iff_getElem?.mpr hd0, rfl⟩

theorem mem_autonumDocs0 {st : DState} {dc cutoff : String} {ex inc : Finset String}
    {d : CDoc} :
    d ∈ autonumDocs0 st dc cutoff ex inc ↔
      ∃ p ∈ st, p.2.cls = dc ∧ natOf p.1 = maxNum p.2.group
        ∧ autonumQualifies cutoff ex inc p.1 p.2.date = true ∧ d = mkCDoc st p.2 := by
  unfold autonumDocs0
  rw [List.mem_filterMap]
  constructor
  · rintro ⟨p, hp, hsome⟩
    split at hsome
    · rename_i hcond
      cases hsome
      exact ⟨p, hp, hcond.1, hcond.2.1, hcond.2.2, rfl⟩
    · cases hsome
  · rintro ⟨p, hp, h1, h2, h3, rfl⟩
    exact ⟨p, hp, by rw [if_pos ⟨h1, h2, h3⟩]⟩

theorem docRevs_map_snd (d : CDoc) :
    (docRevs d).map Prod.snd = List.range' 1 d.nums.length := by
  unfold docRevs
  rw [List.map_map]
  have h1 : (Prod.snd ∘ fun p : Nat × String => (p.2, p.1 + 1))
      = (fun n => n + 1) ∘ Prod.fst := rfl
  rw [h1, ← List.map_map, List.enum_map_fst, List.range'_eq_map_range]
  exact (List.map_congr_left fun x _ => Nat.add_comm 1 x).symm

theorem mem_revs_foldl {docs : List CDoc} {q : String × Nat} :
    ∀ {acc : List (String × Nat)},
      (q ∈ acc ∨ ∃ d ∈ docs, q ∈ docRevs d) →
      q ∈ docs.foldl (fun acc d => acc ++ docRevs d) acc := by
  induction docs with
  | nil =>
      rintro acc (h | ⟨d, hd, _⟩)
      · exact h
      · cases hd
  | cons d0 ds ih =>
      rintro acc (h | ⟨d, hd, hq⟩)
      · exact ih (Or.inl (List.mem_append.mpr (Or.inl h)))
      · rcases List.mem_cons.mp hd with rfl | hd'
        · exact ih (Or.inl (List.mem_append.mpr (Or.inr hq)))
        · exact ih (Or.inr ⟨d, hd', hq⟩)

/-- C5: every document emitted for an auto-numbered class comes from a
group of the class (represented by its maximal-numbered record), lists
exactly the group's members in ascending numeric record-number order,
and its emitted revision numbers are exactly the dense sequence
`1..N` (`N` the group size) in that order, all of them written into
the revision map. -/
theorem C5_revisions (st : DState) (dc : String) (start : Nat) (cutoff : String)
    (ex inc : Finset String) (d : CDoc)
    (hd : d ∈ (generate_autonum_docs st dc start cutoff ex inc).1) :
    (∃ p ∈ st, p.2.cls = dc ∧ natOf p.1 = maxNum p.2.group
       ∧ d.nums = numSorted p.2.group ∧ d.nums.length = p.2.group.card)
    ∧ List.Sorted (fun a b => natOf a ≤ natOf b) d.nums
    ∧ (docRevs d).map Prod.snd = List.range' 1 d.nums.length
    ∧ ∀ q ∈ docRevs d, q ∈ (generate_autonum_docs st dc start cutoff ex inc).2 := by
  have hd0 := hd
  unfold generate_autonum_docs at hd0
  simp only at hd0
  rcases mem_assignIds.mp hd0 with ⟨i, d0, hget, rfl⟩
  have hmem0 : d0 ∈ sortDocs (autonumDocs0 st dc cutoff ex inc) :=
    List.getElem?_mem hget
  rcases mem_autonumDocs0.mp (mem_sortDocs.mp hmem0) with ⟨p, hp, hcls, hrep, hq, rfl⟩
  refine ⟨⟨p, hp, hcls, hrep, rfl, numSorted_length p.2.group⟩, ?_, ?_, ?_⟩
  · exact (numSorted_sorted p.2.group).imp fun h => numLE_natOf h
  · exact docRevs_map_snd _
  · intro q hq'
    unfold generate_autonum_docs
    simp only
    exact mem_revs_foldl (Or.inr ⟨_, hd, hq'⟩)

/-- Witness for C5 on the one-group state `c5exSt`. -/
theorem C5_revisions_witness :
    List.Sorted (fun a b => natOf a ≤ natOf b) c5exDoc.nums
    ∧ (docRevs c5exDoc).map Prod.snd = List.range' 1 c5exDoc.nums.length
    ∧ ∀ q ∈ docRevs c5exDoc,
        q ∈ (generate_autonum_docs c5exSt "c" 4000 "2023-10-01" ∅ ∅).2 := by
  have h := C5_revisions c5exSt "c" 4000 "2023-10-01" ∅ ∅ c5exDoc (by decide)
  exact ⟨h.2.1, h.2.2.1, h.2.2.2⟩

theorem assignIds_length (dc : String) (start : Nat) (l : List CDoc) :
    (assignIds dc start l).length = l.length := by
  simp [assignIds]

theorem assignIds_getElem {dc : String} {start : Nat} {l : List CDoc} {i : Nat}
    (h' : i < l.length) :
    (assignIds dc start l).get ⟨i, by rw [assignIds_length]; exact h'⟩
      = { l.get ⟨i, h'⟩ with id := upperStr dc ++ toString (start + i) } := by
  unfold assignIds
  simp [List.getElem_map, List.getElem_enum]

/-- C3 (amended): for an auto-numbered class the emitted documents are
sorted by their sort key, which is the lexicographically minimal
member pair `(member date, member number)` of the group (not the
componentwise pair of earliest date and smallest member, which the
counterexample refutes), and sequential identifiers
`<CLASS><base+i>` are assigned in exactly that order; every document
comes from a qualifying group of the class. -/
theorem C3_sorted_sequential (st : DState) (dc : String) (start : Nat)
    (cutoff : String) (ex inc : Finset String) :
    List.Sorted docLE (generate_autonum_docs st dc start cutoff ex inc).1
    ∧ (∀ i, ∀ h : i < (generate_autonum_docs st dc start cutoff ex inc).1.length,
        ((generate_autonum_docs st dc start cutoff ex inc).1.get ⟨i, h⟩).id
          = upperStr dc ++ toString (start + i))
    ∧ (∀ d ∈ (generate_autonum_docs st dc start cutoff ex inc).1,
        ∃ p ∈ st, p.2.cls = dc ∧ natOf p.1 = maxNum p.2.group
          ∧ d.sortkey = minKey st p.2.group ∧ d.nums = numSorted p.2.group) := by
  have hlen := assignIds_length dc start (sortDocs (autonumDocs0 st dc cutoff ex inc))
  refine ⟨?_, ?_, ?_⟩
  · show List.Sorted docLE (assignIds dc start (sortDocs (autonumDocs0 st dc cutoff ex inc)))
    have hs := sorted_sortDocs (autonumDocs0 st dc cutoff ex inc)
    rw [List.Sorted, List.pairwise_iff_get] at hs ⊢
    intro i j hij
    have hj : (j : Nat) < (sortDocs (autonumDocs0 st dc cutoff ex inc)).length :=
      lt_of_lt_of_le j.isLt (le_of_eq hlen)
    have hi : (i : Nat) < (sortDocs (autonumDocs0 st dc cutoff ex inc)).length :=
      lt_trans (by exact_mod_cast hij) hj
    have e1 : (assignIds dc start (sortDocs (autonumDocs0 st dc cutoff ex inc))).get i
        = { (sortDocs (autonumDocs0 st dc cutoff ex inc)).get ⟨(i : Nat), hi⟩ with
            id := upperStr dc ++ toString (start + (i : Nat)) } := assignIds_getElem hi
    have e2 : (assignIds dc start (sortDocs (autonumDocs0 st dc cutoff ex inc))).get j
        = { (sortDocs (autonumDocs0 st dc cutoff ex inc)).get ⟨(j : Nat), hj⟩ with
            id := upperStr dc ++ toString (start + (j : Nat)) } := assignIds_getElem hj
    rw [e1, e2]
    exact hs ⟨(i : Nat), hi⟩ ⟨(j : Nat), hj⟩ (by exact_mod_cast hij)
  · intro i h
    have hi : i < (sortDocs (autonumDocs0 st dc cutoff ex inc)).length := by
      rw [← hlen]
      exact h
    have e : (generate_autonum_docs st dc start cutoff ex inc).1.get ⟨i, h⟩
        = { (sortDocs (autonumDocs0 st dc cutoff ex inc)).get ⟨i, hi⟩ with
            id := upperStr dc ++ toString (start + i) } := assignIds_getElem hi
    rw [e]
  · intro d hd
    rcases mem_assignIds.mp hd with ⟨i, d0, hget, rfl⟩
    rcases mem_autonumDocs0.mp (mem_sortDocs.mp (List.getElem?_mem hget))
      with ⟨p, hp, hcls, hrep, hq, rfl⟩
    exact ⟨p, hp, hcls, hrep, rfl, rfl⟩

/-- C3 counterexample: the spec-claimed key orders `{5, 10}` strictly
before `{7}`, yet the generated documents give `C4000` to `{7}` and
`C4001` to `{5, 10}`. -/
theorem C3_counterexample :
    keyLT (claimC3Key c3exSt ({"5", "10"} : Finset String))
        (claimC3Key c3exSt ({"7"} : Finset String)) = true
    ∧ (generate_autonum_docs c3exSt "c" 4000 "2023-10-01" ∅ ∅).1.map
        (fun d => (d.id, d.nums))
      = [("C4000", ["7"]), ("C4001", ["5", "10"])] := by decide

/-- Witness for C3 on the two-group state `c3exSt`. -/
theorem C3_sorted_sequential_witness :
    List.Sorted docLE (generate_autonum_docs c3exSt "c" 4000 "2023-10-01" ∅ ∅).1
    ∧ ((generate_autonum_docs c3exSt "c" 4000 "2023-10-01" ∅ ∅).1.get
        ⟨0, by decide⟩).id = upperStr "c" ++ toString (4000 + 0) :=
  ⟨(C3_sorted_sequential c3exSt "c" 4000 "2023-10-01" ∅ ∅).1,
   (C3_sorted_sequential c3exSt "c" 4000 "2023-10-01" ∅ ∅).2.1 0 (by decide)⟩

theorem mem_eq_of_nodup_keys {β : Type} {l : List (String × β)} {k : String} {a b : β}
    (hnd : (l.map Prod.fst).Nodup) (ha : (k, a) ∈ l) (hb : (k, b) ∈ l) : a = b := by
  induction l with
  | nil => cases ha
  | cons p ps ih =>
      rw [List.map_cons, List.nodup_cons] at hnd
      rcases List.mem_cons.mp ha with ha0 | ha'
      · rcases List.mem_cons.mp hb with hb0 | hb'
        · rw [← ha0] at hb0
          exact ((Prod.ext_iff.mp hb0).2).symm
        · rw [← ha0] at hnd
          exact absurd (List.mem_map.mpr ⟨(k, b), hb', rfl⟩) hnd.1
      · rcases List.mem_cons.mp hb with hb0 | hb'
        · rw [← hb0] at hnd
          exact absurd (List.mem_map.mpr ⟨(k, a), ha', rfl⟩) hnd.1
        · exact ih hnd.2 ha' hb'

theorem autonumQualifies_iff {cutoff : String} {ex inc : Finset String}
    {k date : String} :
    autonumQualifies cutoff ex inc k date = true ↔
      (strLE cutoff date = true ∧ k ∉ ex) ∨ k ∈ inc := by
  simp [autonumQualifies]

/-- C6 (amended): for a group of an auto-numbered class, represented by
its maximal-numbered record `k`, a document is generated if and only
if the representative's date is at or after the class cutoff and `k`
is not in the exclude set, or `k` is in the include set.  Hence: a
group dated exactly at the cutoff is included only if also outside
the exclude set (the unconditional inclusion claimed is refuted by
the counterexample); one dated earlier is excluded unless included
explicitly; one in the exclude set and not in the include set is
excluded regardless of date. -/
theorem C6_cutoff_boundary (st : DState) (dc : String) (start : Nat)
    (cutoff : String) (ex inc : Finset String) (k : String) (e : ND)
    (hmem : (k, e) ∈ st) (hnd : (st.map Prod.fst).Nodup)
    (hinj : ∀ a ∈ st.map Prod.fst, ∀ b ∈ st.map Prod.fst, natOf a = natOf b → a = b)
    (hcls : e.cls = dc) (hrep : natOf k = maxNum e.group) :
    ((∃ d ∈ (generate_autonum_docs st dc start cutoff ex inc).1,
        d.nums = numSorted e.group)
      ↔ ((strLE cutoff e.date = true ∧ k ∉ ex) ∨ k ∈ inc))
    ∧ (e.date = cutoff → k ∉ ex →
        ∃ d ∈ (generate_autonum_docs st dc start cutoff ex inc).1,
          d.nums = numSorted e.group)
    ∧ (strLT e.date cutoff = true → k ∉ inc →
        ¬∃ d ∈ (generate_autonum_docs st dc start cutoff ex inc).1,
          d.nums = numSorted e.group)
    ∧ (k ∈ ex → k ∉ inc →
        ¬∃ d ∈ (generate_autonum_docs st dc start cutoff ex inc).1,
          d.nums = numSorted e.group) := by
  have main : (∃ d ∈ (generate_autonum_docs st dc start cutoff ex inc).1,
        d.nums = numSorted e.group)
      ↔ ((strLE cutoff e.date = true ∧ k ∉ ex) ∨ k ∈ inc) := by
    constructor
    · rintro ⟨d, hd, hnums⟩
      rcases mem_assignIds.mp hd with ⟨i, d0, hget, rfl⟩
      have hd0 : d0 ∈ autonumDocs0 st dc cutoff ex inc :=
        mem_sortDocs.mp (List.getElem?_mem hget)
      rcases mem_autonumDocs0.mp hd0 with ⟨p, hp, hpcls, hprep, hq, rfl⟩
      have hg : p.2.group = e.group := numSorted_inj hnums
      have hk : p.1 = k := by
        apply hinj p.1 (List.mem_map.mpr ⟨p, hp, rfl⟩) k
          (List.mem_map.mpr ⟨(k, e), hmem, rfl⟩)
        rw [hprep, hg, hrep]
      have hp' : (k, p.2) ∈ st := by rw [← hk]; exact hp
      have he : p.2 = e := mem_eq_of_nodup_keys hnd hp' hmem
      rw [hk, he] at hq
      exact autonumQualifies_iff.mp hq
    · intro hq
      have hq' : autonumQualifies cutoff ex inc k e.date = true :=
        autonumQualifies_iff.mpr hq
      have hd0 : mkCDoc st e ∈ autonumDocs0 st dc cutoff ex inc :=
        mem_autonumDocs0.mpr ⟨(k, e), hmem, hcls, hrep, hq', rfl⟩
      have hd1 : mkCDoc st e ∈ sortDocs (autonumDocs0 st dc cutoff ex inc) :=
        mem_sortDocs.mpr hd0
      rcases List.getElem?_of_mem hd1 with ⟨i, hget⟩
      exact ⟨_, mem_assignIds.mpr ⟨i, mkCDoc st e, hget, rfl⟩, rfl⟩
  refine ⟨main, ?_, ?_, ?_⟩
  · intro hdate hex
    exact main.mpr (Or.inl ⟨by rw [hdate]; exact strLE_refl cutoff, hex⟩)
  · intro hlt hinc h
    rcases main.mp h with ⟨hle, _⟩ | hi
    · rw [strLT_not_le hlt] at hle
      exact Bool.noConfusion hle
    · exact hinc hi
  · intro hex hinc h
    rcases main.mp h with ⟨_, hex'⟩ | hi
    · exact hex' hex
    · exact hinc hi

/-- C6 counterexample: a group whose representative is dated exactly at
the class cutoff, but whose number is in the exclude set, gets no
identifier. -/
theorem C6_counterexample :
    (c6exSt.lookup "3191").map ND.date = some "2023-10-01"
    ∧ "3191" ∈ C_EXTRA_EXCLUDE
    ∧ (generate_autonum_docs c6exSt "c" 4000 "2023-10-01"
        C_EXTRA_EXCLUDE C_EXTRA_INCLUDE).1 = [] := by decide

/-- Witness for C6: the at-cutoff, non-excluded group of `c5exSt`. -/
theorem C6_cutoff_boundary_witness :
    ∃ d ∈ (generate_autonum_docs c5exSt "c" 4000 "2023-10-01" ∅ ∅).1,
      d.nums = numSorted c6wNd.group :=
  (C6_cutoff_boundary c5exSt "c" 4000 "2023-10-01" ∅ ∅ "10" c6wNd
    (by decide) (by decide) (by decide) (by decide) (by decide)).2.1 rfl (by decide)

theorem enumRevs_map_snd (nums : List String) :
    (enumRevs nums).map Prod.snd = List.range' 1 nums.length := by
  unfold enumRevs
  rw [List.map_map]
  have h1 : (Prod.snd ∘ fun p : Nat × String => (p.2, p.1 + 1))
      = (fun n => n + 1) ∘ Prod.fst := rfl
  rw [h1, ← List.map_map, List.enum_map_fst, List.range'_eq_map_range]
  exact (List.map_congr_left fun x _ => Nat.add_comm 1 x).symm

theorem mem_mrevs_foldl {docs : List MDoc} {q : String × Nat} :
    ∀ {acc : List (String × Nat)},
      (q ∈ acc ∨ ∃ d ∈ docs, q ∈ enumRevs d.nums) →
      q ∈ docs.foldl (fun acc d => acc ++ enumRevs d.nums) acc := by
  induction docs with
  | nil =>
      rintro acc (h | ⟨d, hd, _⟩)
      · exact h
      · cases hd
  | cons d0 ds ih =>
      rintro acc (h | ⟨d, hd, hq⟩)
      · exact ih (Or.inl (List.mem_append.mpr (Or.inl h)))
      · rcases List.mem_cons.mp hd with rfl | hd'
        · exact ih (Or.inl (List.mem_append.mpr (Or.inr hq)))
        · exact ih (Or.inr ⟨d, hd', hq⟩)

/-- C4 (amended): for every meeting class other than the general class
`cm`, each generated document lists the records of one meeting in
ascending record-number order (not ascending date, which the
counterexample refutes), revision numbers are the dense `1..N` in
that number order, and the document's author and title come from the
last member of that number-sorted list, the maximal-numbered record
of the meeting (not the last-dated one). -/
theorem C4_meeting_revs (st : DState) (dc : String) (ms : List MDoc)
    (rv : List (String × Nat)) (hdc : ¬dc = "cm")
    (h : generate_meeting_docs st dc = .ok (ms, rv)) :
    ∀ d ∈ ms, List.Sorted (fun a b => natOf a ≤ natOf b) d.nums
      ∧ (∀ n ∈ d.nums, natOf n ≤ natOf (lastD d.nums))
      ∧ d.author = authorOf st (lastD d.nums)
      ∧ d.title = titleOf st (lastD d.nums)
      ∧ (enumRevs d.nums).map Prod.snd = List.range' 1 d.nums.length
      ∧ ∀ q ∈ enumRevs d.nums, q ∈ rv := by
  unfold generate_meeting_docs at h
  cases hcm : collectMeetings [] dc st with
  | error e => rw [hcm] at h; cases h
  | ok ms0 =>
      rw [hcm] at h
      simp only [if_neg hdc] at h
      rw [Except.ok.injEq, Prod.mk.injEq] at h
      obtain ⟨hms, hrv⟩ := h
      intro d hd
      have hd0 : d ∈ ms0.map fun p =>
          ({ id := upperStr dc ++ p.1,
             author := authorOf st (lastD (numSorted p.2)),
             title := titleOf st (lastD (numSorted p.2)),
             nums := numSorted p.2 } : MDoc) := by
        rw [hms]; exact hd
      have hrevs : ∀ q ∈ enumRevs d.nums, q ∈ rv := by
        intro q hq
        rw [← hrv]
        exact mem_mrevs_foldl (Or.inr ⟨d, hd0, hq⟩)
      rcases List.mem_map.mp hd0 with ⟨p, hp, rfl⟩
      exact ⟨(numSorted_sorted p.2).imp fun h => numLE_natOf h,
        sorted_last_max (numSorted_sorted p.2), rfl, rfl,
        enumRevs_map_snd _, hrevs⟩

/-- C4 counterexample: record 500 is the last-dated member of the
meeting, yet the document takes its author from record 501 (the
maximal-numbered member) and gives 501 revision 2 although 501 is
dated before 500 (revision by ascending date would give 501 revision
1). -/
theorem C4_counterexample :
    strLT (dateOf c4exSt "501") (dateOf c4exSt "500") = true
    ∧ authorOf c4exSt "500" = "AuthorEarlyNum"
    ∧ generate_meeting_docs c4exSt "cma"
      = .ok ([c4wDoc], [("500", 1), ("501", 2)]) :=
  ⟨by decide, by decide, by rfl⟩

/-- Witness for C4 on the one-meeting state `c4exSt`. -/
theorem C4_meeting_revs_witness :
    List.Sorted (fun a b => natOf a ≤ natOf b) c4wDoc.nums
    ∧ (∀ n ∈ c4wDoc.nums, natOf n ≤ natOf (lastD c4wDoc.nums))
    ∧ c4wDoc.author = authorOf c4exSt (lastD c4wDoc.nums)
    ∧ c4wDoc.title = titleOf c4exSt (lastD c4wDoc.nums)
    ∧ (enumRevs c4wDoc.nums).map Prod.snd = List.range' 1 c4wDoc.nums.length
    ∧ ∀ q ∈ enumRevs c4wDoc.nums, q ∈ [("500", 1), ("501", 2)] :=
  C4_meeting_revs c4exSt "cma" [c4wDoc] [("500", 1), ("501", 2)]
    (by decide) (by rfl) c4wDoc (by decide)

theorem lookup_append_ne {β : Type} (l : List (String × β)) (k a : String) (b : β)
    (h : ¬a = k) : (l ++ [(k, b)]).lookup a = l.lookup a := by
  have hbeq : (a == k) = false := beq_eq_false_iff_ne.mpr h
  induction l with
  | nil => simp [List.lookup, hbeq]
  | cons p ps ih =>
      rcases p with ⟨p1, p2⟩
      cases hpe : (a == p1) with
      | true => simp [List.cons_append, List.lookup, hpe]
      | false => simpa [List.cons_append, List.lookup, hpe] using ih

theorem lookup_append_self {β : Type} (l : List (String × β)) (k : String) (b : β)
    (h : k ∉ l.map Prod.fst) : (l ++ [(k, b)]).lookup k = some b := by
  induction l with
  | nil => simp [List.lookup]
  | cons p ps ih =>
      rcases p with ⟨p1, p2⟩
      rw [List.map_cons, List.mem_cons] at h
      push_neg at h
      have hbeq : (k == p1) = false := beq_eq_false_iff_ne.mpr h.1
      simpa [List.cons_append, List.lookup, hbeq] using ih h.2

theorem dateOf_append_ne {st : DState} {k : String} (e : ND) {n : String}
    (h : ¬n = k) : dateOf (st ++ [(k, e)]) n = dateOf st n := by
  unfold dateOf
  rw [lookup_append_ne st k n e h]

theorem dateOf_append_self {st : DState} {k : String} (e : ND)
    (h : k ∉ st.map Prod.fst) : dateOf (st ++ [(k, e)]) k = e.date := by
  unfold dateOf
  rw [lookup_append_self st k e h]

theorem numSorted_singleton (k : String) : numSorted ({k} : Finset String) = [k] := rfl

theorem maxNum_singleton (k : String) : maxNum ({k} : Finset String) = natOf k := by
  unfold maxNum
  rw [numSorted_singleton]
  simp

theorem memberKeys_append {st : DState} {k : String} {e : ND} {g : Finset String}
    (h : ∀ n ∈ g, ¬n = k) : memberKeys (st ++ [(k, e)]) g = memberKeys st g := by
  unfold memberKeys
  apply List.map_congr_left
  intro n hn
  rw [dateOf_append_ne e (h n (mem_numSorted.mp hn))]

theorem minKey_append {st : DState} {k : String} {e : ND} {g : Finset String}
    (h : ∀ n ∈ g, ¬n = k) : minKey (st ++ [(k, e)]) g = minKey st g := by
  unfold minKey
  rw [memberKeys_append h]

theorem mkCDoc_append {st : DState} {k : String} {e : ND} {q : ND}
    (h : ∀ n ∈ q.group, ¬n = k) : mkCDoc (st ++ [(k, e)]) q = mkCDoc st q := by
  unfold mkCDoc
  rw [minKey_append h]

theorem minKey_singleton {st : DState} {k : String} :
    minKey st ({k} : Finset String) = (dateOf st k, natOf k) := by
  unfold minKey memberKeys
  rw [numSorted_singleton]
  rfl

theorem foldl_minKey_mem : ∀ (xs : List (String × Nat)) (x : String × Nat),
    xs.foldl (fun m y => if keyLT y m then y else m) x ∈ x :: xs := by
  intro xs
  induction xs with
  | nil => intro x; exact List.mem_cons_self _ _
  | cons y ys ih =>
      intro x
      show List.foldl _ (if keyLT y x then y else x) ys ∈ x :: y :: ys
      rcases List.mem_cons.mp (ih (if keyLT y x then y else x)) with h | h
      · rw [h]
        split
        · exact List.mem_cons.mpr (Or.inr (List.mem_cons_self _ _))
        · exact List.mem_cons_self _ _
      · exact List.mem_cons.mpr (Or.inr (List.mem_cons.mpr (Or.inr h)))

theorem minKey_self_mem {st : DState} {g : Finset String} (h : memberKeys st g ≠ []) :
    minKey st g ∈ memberKeys st g := by
  unfold minKey
  cases hm : memberKeys st g with
  | nil => exact absurd hm h
  | cons x xs => exact foldl_minKey_mem xs x

theorem mem_memberKeys {st : DState} {g : Finset String} {q : String × Nat}
    (h : q ∈ memberKeys st g) : ∃ n ∈ g, q = (dateOf st n, natOf n) := by
  unfold memberKeys at h
  rcases List.mem_map.mp h with ⟨n, hn, rfl⟩
  exact ⟨n, mem_numSorted.mp hn, rfl⟩

theorem minKey_date_lt {st : DState} {g : Finset String} {D : String}
    (hne : ∃ n, n ∈ g)
    (hmem : ∀ n ∈ g, n ∈ st.map Prod.fst)
    (hdates : ∀ p ∈ st, strLT p.2.date D = true) :
    strLT (minKey st g).1 D = true := by
  obtain ⟨n0, hn0⟩ := hne
  have hne' : memberKeys st g ≠ [] := by
    have : (dateOf st n0, natOf n0) ∈ memberKeys st g :=
      List.mem_map.mpr ⟨n0, mem_numSorted.mpr hn0, rfl⟩
    exact List.ne_nil_of_mem this
  rcases mem_memberKeys (minKey_self_mem hne') with ⟨n, hn, he⟩
  have hk : n ∈ st.map Prod.fst := hmem n hn
  have hs : (st.lookup n).isSome = true := (lookup_isSome_iff_mem st n).mpr hk
  cases hl : st.lookup n with
  | none => rw [hl] at hs; cases hs
  | some q =>
      have hq : (n, q) ∈ st := lookup_mem st n q hl
      have hdq : dateOf st n = q.date := by unfold dateOf; rw [hl]
      rw [he]
      simp only [hdq]
      exact hdates (n, q) hq

theorem filterMap_ext_mem {α β : Type} {f g : α → Option β} :
    ∀ {l : List α}, (∀ a ∈ l, f a = g a) → l.filterMap f = l.filterMap g := by
  intro l
  induction l with
  | nil => intro _; rfl
  | cons a as ih =>
      intro h
      rw [List.filterMap_cons, List.filterMap_cons, h a (List.mem_cons_self _ _),
          ih fun b hb => h b (List.mem_cons.mpr (Or.inr hb))]

theorem insDoc_last : ∀ {m : List CDoc} {x : CDoc},
    (∀ y ∈ m, keyLE y.sortkey x.sortkey = true) → insDoc m x = m ++ [x] := by
  intro m
  induction m with
  | nil => intro x _; rfl
  | cons y ys ih =>
      intro x h
      show (if keyLE y.sortkey x.sortkey then y :: insDoc ys x else x :: y :: ys)
        = (y :: ys) ++ [x]
      rw [if_pos (h y (List.mem_cons_self _ _)),
          ih fun z hz => h z (List.mem_cons.mpr (Or.inr hz))]
      rfl

theorem sortDocs_append_one {l : List CDoc} {x : CDoc}
    (h : ∀ y ∈ l, keyLE y.sortkey x.sortkey = true) :
    sortDocs (l ++ [x]) = sortDocs l ++ [x] := by
  unfold sortDocs
  rw [List.foldl_append]
  exact insDoc_last fun y hy => h y (mem_sortDocs.mp hy)

theorem assignIds_append_one (dc : String) (start : Nat) (l : List CDoc) (x : CDoc) :
    assignIds dc start (l ++ [x])
      = assignIds dc start l
        ++ [{ x with id := upperStr dc ++ toString (start + l.length) }] := by
  apply List.ext_getElem
  · rw [assignIds_length, List.length_append, List.length_append, assignIds_length]
    rfl
  · intro i h1 h2
    have hi : i < (l ++ [x]).length := by
      rw [← assignIds_length dc start]
      exact h1
    by_cases hil : i < l.length
    · have hia : i < (assignIds dc start l).length := by
        rw [assignIds_length]
        exact hil
      show (assignIds dc start (l ++ [x])).get ⟨i, h1⟩
        = (assignIds dc start l
            ++ [{ x with id := upperStr dc ++ toString (start + l.length) }]).get ⟨i, h2⟩
      have e1 : (assignIds dc start (l ++ [x])).get ⟨i, h1⟩
          = { (l ++ [x]).get ⟨i, hi⟩ with id := upperStr dc ++ toString (start + i) } :=
        assignIds_getElem hi
      have e2 : (l ++ [x]).get ⟨i, hi⟩ = l.get ⟨i, hil⟩ := List.getElem_append_left hil
      have e3 : (assignIds dc start l
            ++ [{ x with id := upperStr dc ++ toString (start + l.length) }]).get ⟨i, h2⟩
          = (assignIds dc start l).get ⟨i, hia⟩ := List.getElem_append_left hia
      have e4 : (assignIds dc start l).get ⟨i, hia⟩
          = { l.get ⟨i, hil⟩ with id := upperStr dc ++ toString (start + i) } :=
        assignIds_getElem hil
      rw [e1, e2, e3, e4]
    · have hieq : i = l.length := by
        rw [assignIds_length, List.length_append] at h1
        simp only [List.length_singleton] at h1
        omega
      subst hieq
      show (assignIds dc start (l ++ [x])).get ⟨l.length, h1⟩
        = (assignIds dc start l
            ++ [{ x with id := upperStr dc ++ toString (start + l.length) }]).get
              ⟨l.length, h2⟩
      have e1 : (assignIds dc start (l ++ [x])).get ⟨l.length, h1⟩
          = { (l ++ [x]).get ⟨l.length, hi⟩ with
              id := upperStr dc ++ toString (start + l.length) } :=
        assignIds_getElem hi
      have e2 : (l ++ [x]).get ⟨l.length, hi⟩ = x :=
        List.getElem_concat_length l x l.length rfl hi
      have e3 : (assignIds dc start l
            ++ [{ x with id := upperStr dc ++ toString (start + l.length) }]).get
              ⟨l.length, h2⟩
          = { x with id := upperStr dc ++ toString (start + l.length) } :=
        List.getElem_concat_length _ _ l.length (assignIds_length dc start l).symm h2
      rw [e1, e2, e3]

theorem filterMap_singleton {α β : Type} (f : α → Option β) (a : α) :
    [a].filterMap f = (f a).toList := by
  cases h : f a <;> simp [List.filterMap_cons, h]

/-- C1 (amended): appending one record whose date is strictly later
than every date in the state, under the invariants the grouping pass
guarantees (groups contain their record and only existing keys) and
provided the new record joins no existing group (its group is the
fresh singleton), reproduces every previously generated document --
same identifier, same sort key, same members -- and adds at most one
trailing document, for the new group, with the next sequential
identifier.  (Without the fresh-group proviso the claim is refuted by
the counterexample: a merge into an old non-qualifying group
renumbers old identifiers.) -/
theorem C1_append_stability (st : DState) (k : String) (e : ND) (dc : String)
    (start : Nat) (cutoff : String) (ex inc : Finset String)
    (hk : k ∉ st.map Prod.fst)
    (hsub : ∀ p ∈ st, ∀ n ∈ p.2.group, n ∈ st.map Prod.fst)
    (hself : ∀ p ∈ st, p.1 ∈ p.2.group)
    (hdates : ∀ p ∈ st, strLT p.2.date e.date = true)
    (hge : e.group = {k}) :
    (generate_autonum_docs (st ++ [(k, e)]) dc start cutoff ex inc).1
      = (generate_autonum_docs st dc start cutoff ex inc).1
        ++ (if e.cls = dc ∧ autonumQualifies cutoff ex inc k e.date = true
            then [{ mkCDoc (st ++ [(k, e)]) e with
                    id := upperStr dc ++ toString
                      (start
                        + (generate_autonum_docs st dc start cutoff ex inc).1.length) }]
            else []) := by
  have hnotk : ∀ p ∈ st, ∀ n ∈ p.2.group, ¬n = k := by
    intro p hp n hn he
    exact hk (he ▸ hsub p hp n hn)
  have hsplit : autonumDocs0 (st ++ [(k, e)]) dc cutoff ex inc
      = autonumDocs0 st dc cutoff ex inc
        ++ (if e.cls = dc ∧ autonumQualifies cutoff ex inc k e.date = true
            then [mkCDoc (st ++ [(k, e)]) e] else []) := by
    unfold autonumDocs0
    rw [List.filterMap_append]
    congr 1
    · apply filterMap_ext_mem
      intro p hp
      by_cases hcnd : p.2.cls = dc ∧ natOf p.1 = maxNum p.2.group
          ∧ autonumQualifies cutoff ex inc p.1 p.2.date = true
      · rw [if_pos hcnd, if_pos hcnd, mkCDoc_append (hnotk p hp)]
      · rw [if_neg hcnd, if_neg hcnd]
    · rw [filterMap_singleton]
      show (if e.cls = dc ∧ natOf k = maxNum e.group
            ∧ autonumQualifies cutoff ex inc k e.date = true then
              some (mkCDoc (st ++ [(k, e)]) e)
            else none).toList = _
      by_cases hc : e.cls = dc ∧ autonumQualifies cutoff ex inc k e.date = true
      · have hcond : e.cls = dc ∧ natOf k = maxNum e.group
            ∧ autonumQualifies cutoff ex inc k e.date = true :=
          ⟨hc.1, by rw [hge, maxNum_singleton], hc.2⟩
        rw [if_pos hcond, if_pos hc]
        rfl
      · have hcond : ¬(e.cls = dc ∧ natOf k = maxNum e.group
            ∧ autonumQualifies cutoff ex inc k e.date = true) := by
          rintro ⟨h1, _, h3⟩
          exact hc ⟨h1, h3⟩
        rw [if_neg hcond, if_neg hc]
        rfl
  unfold generate_autonum_docs
  simp only
  rw [hsplit]
  by_cases hc : e.cls = dc ∧ autonumQualifies cutoff ex inc k e.date = true
  · rw [if_pos hc, if_pos hc]
    have hle : ∀ y ∈ autonumDocs0 st dc cutoff ex inc,
        keyLE y.sortkey (mkCDoc (st ++ [(k, e)]) e).sortkey = true := by
      intro y hy
      rcases mem_autonumDocs0.mp hy with ⟨p, hp, _, _, _, rfl⟩
      have hlt : strLT (minKey st p.2.group).1 e.date = true :=
        minKey_date_lt ⟨p.1, hself p hp⟩ (hsub p hp) hdates
      have hold : (mkCDoc st p.2).sortkey = minKey st p.2.group := rfl
      have hnew : (mkCDoc (st ++ [(k, e)]) e).sortkey.1 = e.date := by
        show (minKey (st ++ [(k, e)]) e.group).1 = e.date
        rw [hge, minKey_singleton]
        exact dateOf_append_self e hk
      unfold keyLE
      rw [hold, hnew, hlt, Bool.true_or]
    rw [sortDocs_append_one hle, assignIds_append_one, assignIds_length]
  · rw [if_neg hc, if_neg hc, List.append_nil, List.append_nil]

/-- C1 counterexample: appending a later-dated record merges it into
record 10's previously non-qualifying group, which now qualifies and
sorts first by its old earliest date, so record 11's group is renumbered
from C4000 to C4001. -/
theorem C1_counterexample :
    (∀ p ∈ c1exS1, strLT p.2.date "2023-10-03" = true)
    ∧ pipeDocs (cPipeline c1exS1 2) = some [("C4000", ["11"])]
    ∧ pipeDocs (cPipeline c1exS2 2)
      = some [("C4000", ["10", "12"]), ("C4001", ["11"])] := by decide

/-- Witness for C1: appending a fresh later-dated record to `c5exSt`. -/
theorem C1_append_stability_witness :
    (generate_autonum_docs (c5exSt ++ [("20", c1wNd)]) "c" 4000 "2023-10-01" ∅ ∅).1
      = (generate_autonum_docs c5exSt "c" 4000 "2023-10-01" ∅ ∅).1
        ++ (if c1wNd.cls = "c"
              ∧ autonumQualifies "2023-10-01" ∅ ∅ "20" c1wNd.date = true
            then [{ mkCDoc (c5exSt ++ [("20", c1wNd)]) c1wNd with
                    id := upperStr "c" ++ toString
                      (4000
                        + (generate_autonum_docs c5exSt "c" 4000
                            "2023-10-01" ∅ ∅).1.length) }]
            else []) :=
  C1_append_stability c5exSt "20" c1wNd "c" 4000 "2023-10-01" ∅ ∅
    (by decide) (by decide) (by decide) (by decide) (by decide)

end CPapers
